import Mathlib

/-!
# csc controller commands (`csc/controller.go`)

A shallow embedding of the controller actions of the `csc` command line
client: the positional volume-identifier parser shared by
`deleteVolume`, `controllerPublishVolume`, `controllerUnpublishVolume`
and `validateVolumeCapabilities`, the request construction of every
action, and the goroutine structure of `listVolumes`.

Go strings are Lean strings, Go maps are association lists with unique
keys, the RPC client and the template engine are stubs passed in as
parameters, and every action returns what it returned together with the
RPC calls it issued and the text it wrote to standard output.
-/

namespace Csc

/-! ## Go maps of strings -/

/-- A Go `map[string]string`: the entries, newest first, one per key. -/
abbrev GoMap := List (String × String)

namespace GoMap

/-- The Go assignment `m[k] = v`: the entry for `k` is replaced. -/
def set (m : GoMap) (k v : String) : GoMap :=
  (k, v) :: m.filter (fun e => e.1 != k)

/-- The Go lookup `v, ok := m[k]`. -/
def get? (m : GoMap) (k : String) : Option String :=
  (m.find? (fun e => e.1 == k)).map (fun e => e.2)

/-- The Go builtin `len(m)`. -/
def len (m : GoMap) : Nat := m.length

/-- The keys of the map. -/
def keys (m : GoMap) : List String := m.map (fun e => e.1)

end GoMap

/-! ## `strings.SplitN` for a one-byte separator -/

/-- The position of the first occurrence of `sep` (`strings.Index`). -/
def index : List Char → Char → Option Nat
  | [], _ => none
  | c :: cs, sep => if c = sep then some 0 else (index cs sep).map (· + 1)

/-- The loop of `genSplit`: at most `k` more cuts, the rest is the last
piece. -/
def genSplit : List Char → Char → Nat → List (List Char)
  | s, _, 0 => [s]
  | s, sep, k + 1 =>
    match index s sep with
    | none => [s]
    | some m => s.take m :: genSplit (s.drop (m + 1)) sep k

/-- The Go call `strings.SplitN(s, sep, n)` for `n ≥ 0` and a one-byte
separator; such a byte is never part of a longer UTF-8 sequence, so
cutting at characters is cutting at bytes. -/
def SplitN (s : String) (sep : Char) (n : Nat) : List String :=
  if n = 0 then [] else (genSplit s.data sep (n - 1)).map String.mk

/-! ## The volume identifier parsed from the positional arguments -/

/-- The Go call `fs.Arg(x)`: the x-th positional argument, or the empty
string. -/
def Arg (args : List String) (x : Nat) : String := args.getD x ""

/-- The Go call `fs.NArg()`. -/
def NArg (args : List String) : Nat := args.length

/-- One iteration of the loop body: split the token at the first `=` and
store it. -/
def parseToken (values : GoMap) (a : String) : GoMap :=
  let kv := SplitN a '=' 2
  match kv with
  | [k] => values.set k ""
  | [k, v] => values.set k v
  | _ => values

/-- The loop `for x := 0; x < fs.NArg(); x++` that every identifier
taking action runs over its positional arguments, started from the empty
map. -/
def parseVolumeID (args : List String) : GoMap :=
  (List.range (NArg args)).foldl (fun values x => parseToken values (Arg args x)) []

/-! ## The parser as the specification words it -/

/-- The text of a token before its first `=` (the whole token when it has
none). -/
def tokenKey (t : String) : String := String.mk (t.data.takeWhile (· != '='))

/-- The text of a token after its first `=` (empty when it has none). -/
def tokenValue (t : String) : String := String.mk ((t.data.dropWhile (· != '=')).drop 1)

/-- The specification's fold: a bare token sets its key to the empty
string, a token with `=` sets the text before the first `=` to all the
text after it. -/
def specVolumeID (tokens : List String) : GoMap :=
  tokens.foldl (fun m t =>
    if '=' ∈ t.data then m.set (tokenKey t) (tokenValue t) else m.set t "") []

/-! ## Errors, protocol messages and the stubbed collaborators -/

/-- A non-nil Go `error` value. -/
inductive GoError
  /-- The package's `&errUsage{msg}`. -/
  | errUsage (msg : String)
  /-- An error built by `fmt.Errorf`. -/
  | errorf (msg : String)
  /-- An error handed back by the RPC client or by the template engine. -/
  | foreign (msg : String)
  deriving DecidableEq, Repr

/-- The protocol version `args.version`, passed through untouched. -/
abbrev Version := String

/-- The message `csi.VolumeID`. -/
structure VolumeID where
  Values : GoMap
  deriving DecidableEq, Repr

/-- The message `csi.VolumeMetadata`. -/
structure VolumeMetadata where
  Values : GoMap
  deriving DecidableEq, Repr

/-- The message `csi.NodeID`. -/
structure NodeID where
  Values : GoMap
  deriving DecidableEq, Repr

/-- The message `csi.VolumeCapability_MountVolume`; a field left out of a
Go literal has its zero value. -/
structure MountVolume where
  FsType : String := ""
  MountFlags : List String := []
  deriving DecidableEq, Repr

/-- The message `csi.VolumeCapability` holding a
`csi.VolumeCapability_Mount`. -/
structure VolumeCapability where
  Mount : MountVolume
  deriving DecidableEq, Repr

/-- The message `csi.VolumeInfo`, of which the actions only touch `Id`. -/
structure VolumeInfo where
  Id : Option VolumeID
  deriving DecidableEq, Repr

/-- One call made on the controller client. A Go pointer argument is an
`Option`, `none` being `nil`. -/
inductive RpcCall
  | CreateVolume (version : Version) (name : String) (reqBytes limBytes : Nat)
      (fsType : String) (mntFlags : List String) (params : GoMap)
  | DeleteVolume (version : Version) (volumeID : Option VolumeID)
      (volumeMD : Option VolumeMetadata)
  | ControllerPublishVolume (version : Version) (volumeID : Option VolumeID)
      (volumeMD : Option VolumeMetadata) (nodeID : Option NodeID) (readOnly : Bool)
  | ControllerUnpublishVolume (version : Version) (volumeID : Option VolumeID)
      (volumeMD : Option VolumeMetadata) (nodeID : Option NodeID)
  | ValidateVolumeCapabilities (version : Version) (info : Option VolumeInfo)
      (caps : List VolumeCapability)
  | ListVolumes (version : Version) (maxEntries : Nat) (tok : String)
  | GetCapacity (version : Version)
  deriving DecidableEq, Repr

/-- The stub controller behind the `gocsi` helpers: what each RPC answers.
An error is the message of the error the helper returns. `ListVolumes`
also sees how many `ListVolumes` calls came before, so a stub may answer
the same token differently the second time. -/
structure Client where
  CreateVolume : Version → String → Nat → Nat → String → List String → GoMap →
    Except String VolumeInfo
  DeleteVolume : Version → Option VolumeID → Option VolumeMetadata → Option String
  ControllerPublishVolume : Version → Option VolumeID → Option VolumeMetadata →
    Option NodeID → Bool → Except String GoMap
  ControllerUnpublishVolume : Version → Option VolumeID → Option VolumeMetadata →
    Option NodeID → Option String
  ValidateVolumeCapabilities : Version → Option VolumeInfo → List VolumeCapability →
    Except String String
  ListVolumes : Nat → Version → Nat → String → Except String (List VolumeInfo × String)
  GetCapacity : Version → Except String Nat

/-- What a template may be executed against. -/
inductive Data
  | volumeInfo (v : VolumeInfo)
  | values (m : GoMap)
  | validateResult (r : String)

/-- A compiled template: `Execute` gives the text it wrote to the sink and
the error it returned, if any. -/
structure Template where
  Execute : Data → String × Option String

/-- The argument container `argsCreateVolume`. -/
structure ArgsCreateVolume where
  reqBytes : Nat := 0
  limBytes : Nat := 0
  fsType : String := ""
  mntFlags : List String := []
  params : GoMap := []

/-- The argument container `argsDeleteVolume`. -/
structure ArgsDeleteVolume where
  volumeMD : GoMap := []

/-- The argument container `argsControllerPublishVolume`. -/
structure ArgsControllerPublishVolume where
  volumeMD : GoMap := []
  nodeID : GoMap := []
  readOnly : Bool := false

/-- The argument container `argsControllerUnpublishVolume`. -/
structure ArgsControllerUnpublishVolume where
  volumeMD : GoMap := []
  nodeID : GoMap := []

/-- The argument container `argsValidateVolumeCapabilities`. -/
structure ArgsValidateVolumeCapabilities where
  fsType : String := ""
  mntFlags : List String := []

/-- The argument container `argsListVolumes`; `maxEntries` is a `uint64`. -/
structure ArgsListVolumes where
  startingToken : String := ""
  maxEntries : Nat := 0
  paging : Bool := false

/-- Everything an action reads: the package-level argument containers, the
global `args.format` and `args.version`, the positional arguments left in
the flag set, the controller stub and the template compiler
(`template.New("template").Parse`). -/
structure Env where
  format : String
  version : Version
  positional : List String
  argsCreateVolume : ArgsCreateVolume := {}
  argsDeleteVolume : ArgsDeleteVolume := {}
  argsControllerPublishVolume : ArgsControllerPublishVolume := {}
  argsControllerUnpublishVolume : ArgsControllerUnpublishVolume := {}
  argsValidateVolumeCapabilities : ArgsValidateVolumeCapabilities := {}
  argsListVolumes : ArgsListVolumes := {}
  client : Client
  Parse : String → Except String Template

/-- What running an action did: the error it returned (`none` is `nil`),
the RPC calls it issued in order, and the text it wrote to standard
output. -/
structure Outcome where
  err : Option GoError
  rpcs : List RpcCall
  stdout : String

/-! ## The sequential actions -/

/-- The action `createVolume`. -/
def createVolume (env : Env) : Outcome :=
  let name := Arg env.positional 0
  if name == "" then
    ⟨some (.errUsage "missing volume name"), [], ""⟩
  else
    match env.Parse env.format with
    | .error e => ⟨some (.foreign e), [], ""⟩
    | .ok tpl =>
      let a := env.argsCreateVolume
      let call := RpcCall.CreateVolume env.version name a.reqBytes a.limBytes
        a.fsType a.mntFlags a.params
      match env.client.CreateVolume env.version name a.reqBytes a.limBytes
          a.fsType a.mntFlags a.params with
      | .error e => ⟨some (.foreign e), [call], ""⟩
      | .ok result =>
        let r := tpl.Execute (.volumeInfo result)
        ⟨r.2.map .foreign, [call], r.1⟩

/-- The action `deleteVolume`. The local `volumeMD` is declared and never
assigned. -/
def deleteVolume (env : Env) : Outcome :=
  if NArg env.positional == 0 then
    ⟨some (.errUsage "missing volume ID"), [], ""⟩
  else
    let volumeMD : Option VolumeMetadata := none
    let volumeID : Option VolumeID := some ⟨parseVolumeID env.positional⟩
    let call := RpcCall.DeleteVolume env.version volumeID volumeMD
    match env.client.DeleteVolume env.version volumeID volumeMD with
    | some e => ⟨some (.foreign e), [call], ""⟩
    | none => ⟨none, [call], "Success\n"⟩

/-- The action `controllerPublishVolume`. -/
def controllerPublishVolume (env : Env) : Outcome :=
  if NArg env.positional == 0 then
    ⟨some (.errUsage "missing volume ID"), [], ""⟩
  else
    let a := env.argsControllerPublishVolume
    let volumeID : Option VolumeID := some ⟨parseVolumeID env.positional⟩
    let volumeMD : Option VolumeMetadata :=
      if a.volumeMD.len > 0 then some ⟨a.volumeMD⟩ else none
    let nodeID : Option NodeID :=
      if a.nodeID.len > 0 then some ⟨a.nodeID⟩ else none
    match env.Parse env.format with
    | .error e => ⟨some (.foreign e), [], ""⟩
    | .ok tpl =>
      let call := RpcCall.ControllerPublishVolume env.version volumeID volumeMD nodeID
        a.readOnly
      match env.client.ControllerPublishVolume env.version volumeID volumeMD nodeID
          a.readOnly with
      | .error e => ⟨some (.foreign e), [call], ""⟩
      | .ok result =>
        let r := tpl.Execute (.values result)
        ⟨r.2.map .foreign, [call], r.1⟩

/-- The action `controllerUnpublishVolume`. -/
def controllerUnpublishVolume (env : Env) : Outcome :=
  if NArg env.positional == 0 then
    ⟨some (.errUsage "missing volume ID"), [], ""⟩
  else
    let a := env.argsControllerUnpublishVolume
    let volumeID : Option VolumeID := some ⟨parseVolumeID env.positional⟩
    let volumeMD : Option VolumeMetadata :=
      if a.volumeMD.len > 0 then some ⟨a.volumeMD⟩ else none
    let nodeID : Option NodeID :=
      if a.nodeID.len > 0 then some ⟨a.nodeID⟩ else none
    let call := RpcCall.ControllerUnpublishVolume env.version volumeID volumeMD nodeID
    match env.client.ControllerUnpublishVolume env.version volumeID volumeMD nodeID with
    | some e => ⟨some (.foreign e), [call], ""⟩
    | none => ⟨none, [call], ""⟩

/-- The capability list `caps` that `validateVolumeCapabilities` builds
from its locals `fsType` and `mntFlags`. -/
def buildCaps (fsType : String) (mntFlags : List String) : List VolumeCapability :=
  let caps : List VolumeCapability := []
  let caps := if fsType != "" then caps ++ [⟨{ FsType := fsType }⟩] else caps
  let caps := if mntFlags.length > 0 then caps ++ [⟨{ MountFlags := mntFlags }⟩] else caps
  caps

/-- The action `validateVolumeCapabilities`. Its local `mntFlags` is
initialised from `argsCreateVolume.mntFlags.vals`. -/
def validateVolumeCapabilities (env : Env) : Outcome :=
  if NArg env.positional == 0 then
    ⟨some (.errUsage "missing volume ID"), [], ""⟩
  else
    let fsType := env.argsValidateVolumeCapabilities.fsType
    let mntFlags := env.argsCreateVolume.mntFlags
    let volumeID : Option VolumeID := some ⟨parseVolumeID env.positional⟩
    let info : Option VolumeInfo := some ⟨volumeID⟩
    let caps := buildCaps fsType mntFlags
    let call := RpcCall.ValidateVolumeCapabilities env.version info caps
    match env.client.ValidateVolumeCapabilities env.version info caps with
    | .error e => ⟨some (.foreign e), [call], ""⟩
    | .ok res =>
      match env.Parse env.format with
      | .error e => ⟨some (.foreign e), [call], ""⟩
      | .ok tpl =>
        let r := tpl.Execute (.validateResult res)
        ⟨r.2.map .foreign, [call], r.1⟩

/-- The action `getCapacity`: `fmt.Printf("TotalCapcity: %v\n", cap)` on
success. -/
def getCapacity (env : Env) : Outcome :=
  let call := RpcCall.GetCapacity env.version
  match env.client.GetCapacity env.version with
  | .error e => ⟨some (.foreign e), [call], ""⟩
  | .ok cap => ⟨none, [call], "TotalCapcity: " ++ toString cap ++ "\n"⟩

/-! ## `listVolumes`: the goroutines as an interleaving machine

`listVolumes` starts a goroutine that waits on the wait group and closes
`chdone`, a goroutine that fetches page after page, and one goroutine per
fetched page that renders the page's items; the calling goroutine blocks in
a `select` on `chdone` and `cherrs`. A state records where each goroutine
stands, a move lets one goroutine take its next step, and a schedule is a
list of moves. -/

/-- Modelled from the spec: the package constant `maxUint32`, declared
outside `controller.go`; the specification gives the bound as 4294967295. -/
def maxUint32 : Nat := 4294967295

/-- The Go conversion `uint32(x)` of a `uint64`. -/
def uint32 (x : Nat) : Nat := x % 2 ^ 32

/-- The calling goroutine: blocked in the `select`, or returned. -/
inductive MainPc
  | select
  | returned (r : Option GoError)
  deriving DecidableEq

/-- The goroutine `wg.Wait(); close(chdone)`. -/
inductive WaiterPc
  | wait
  | close
  | exited
  deriving DecidableEq

/-- The fetch goroutine: about to call `gocsi.ListVolumes` with `tok`,
blocked on `cherrs <- err`, past the `return` that follows the send, about
to run `wg.Add(1)`, about to start the render goroutine and test the loop
exit, about to run the final `wg.Done()`, or past it. -/
inductive FetchPc
  | call (tok : String)
  | sendErr (e : GoError)
  | returnedErr
  | add (vols : List VolumeInfo) (next : String)
  | spawn (vols : List VolumeInfo) (next : String)
  | done
  | exited
  deriving DecidableEq

/-- A render goroutine: in its `range` loop with `rest` still to render
(with nothing left its next step is `wg.Done()`), blocked on
`cherrs <- err`, past the `return` that follows the send, or past
`wg.Done()`. -/
inductive RenderPc
  | loop (rest : List VolumeInfo)
  | sendErr (e : GoError)
  | returnedErr
  | exited
  deriving DecidableEq

/-- One `tpl.Execute(os.Stdout, v)`: the render goroutine that made it (in
the order the goroutines were started, so the page number), the item, and
the text that reached standard output. -/
structure Write where
  task : Nat
  item : VolumeInfo
  text : String
  deriving DecidableEq

/-- The state of one `listVolumes` invocation: the locals `maxEntries` and
`tpl` (`none` is the nil pointer), the program point of every goroutine,
the wait group counter, whether `chdone` is closed, and the record of the
RPC calls and of the writes made so far. -/
structure LVState where
  maxEntries : Nat
  tpl : Option Template
  main : MainPc
  waiter : WaiterPc
  fetcher : FetchPc
  renders : List RenderPc
  wg : Int
  chdone : Bool
  rpcs : List RpcCall
  writes : List Write

/-- A scheduling decision: the `select` takes `<-chdone`, the `select`
receives what the fetch goroutine or the i-th render goroutine is sending
on `cherrs`, or the waiter, the fetch goroutine or the i-th render
goroutine takes its next step. -/
inductive Move
  | mainDone
  | recvFetcher
  | recvRender (i : Nat)
  | waiter
  | fetcher
  | render (i : Nat)
  deriving DecidableEq, Repr

/-- The state when `listVolumes` returns `e` before it starts a
goroutine. -/
def earlyReturn (maxEntries : Nat) (e : GoError) : LVState :=
  { maxEntries := maxEntries, tpl := none, main := .returned (some e),
    waiter := .exited, fetcher := .exited, renders := [], wg := 0,
    chdone := false, rpcs := [], writes := [] }

/-- The sequential head of `listVolumes`: the range check on
`argsListVolumes.maxEntries`, the conversion to `uint32`, the compilation
of the format string, then `wg.Add(1)` and the two `go` statements, which
leave the caller in the `select`, the waiter in `wg.Wait()` and the fetch
goroutine about to call with the starting token. -/
def listVolumesInit (env : Env) : LVState :=
  let max := env.argsListVolumes.maxEntries
  if max > maxUint32 then
    earlyReturn 0 (.errorf ("error: max entries > uin32: " ++ toString max))
  else
    let maxEntries := uint32 env.argsListVolumes.maxEntries
    match env.Parse env.format with
    | .error e => earlyReturn maxEntries (.foreign e)
    | .ok tpl =>
      { maxEntries := maxEntries, tpl := some tpl, main := .select,
        waiter := .wait, fetcher := .call env.argsListVolumes.startingToken,
        renders := [], wg := 1, chdone := false, rpcs := [], writes := [] }

/-- The step of the fetch goroutine. -/
def stepFetcher (env : Env) (s : LVState) : Option LVState :=
  match s.fetcher with
  | .call tok =>
    let rpcs := s.rpcs ++ [RpcCall.ListVolumes env.version s.maxEntries tok]
    match env.client.ListVolumes s.rpcs.length env.version s.maxEntries tok with
    | .error e => some { s with rpcs := rpcs, fetcher := .sendErr (.foreign e) }
    | .ok (vols, next) => some { s with rpcs := rpcs, fetcher := .add vols next }
  | .add vols next => some { s with wg := s.wg + 1, fetcher := .spawn vols next }
  | .spawn vols next =>
    some { s with
      renders := s.renders ++ [.loop vols],
      fetcher := if !env.argsListVolumes.paging || next == "" then .done else .call next }
  | .done => some { s with wg := s.wg - 1, fetcher := .exited }
  | _ => none

/-- The step of the i-th render goroutine. -/
def stepRender (s : LVState) (i : Nat) : Option LVState :=
  match s.tpl, s.renders.get? i with
  | _, some (.loop []) =>
    some { s with wg := s.wg - 1, renders := s.renders.set i .exited }
  | some tpl, some (.loop (v :: vs)) =>
    let r := tpl.Execute (.volumeInfo v)
    some { s with
      writes := s.writes ++ [⟨i, v, r.1⟩],
      renders := s.renders.set i
        (match r.2 with
         | none => .loop vs
         | some e => .sendErr (.foreign e)) }
  | _, _ => none

/-- One move of the machine; `none` when the move is not enabled. -/
def step (env : Env) (s : LVState) : Move → Option LVState
  | .mainDone =>
    match s.main with
    | .select => if s.chdone then some { s with main := .returned none } else none
    | _ => none
  | .recvFetcher =>
    match s.main, s.fetcher with
    | .select, .sendErr e =>
      some { s with main := .returned (some e), fetcher := .returnedErr }
    | _, _ => none
  | .recvRender i =>
    match s.main, s.renders.get? i with
    | .select, some (.sendErr e) =>
      some { s with main := .returned (some e), renders := s.renders.set i .returnedErr }
    | _, _ => none
  | .waiter =>
    match s.waiter with
    | .wait => if s.wg = 0 then some { s with waiter := .close } else none
    | .close => some { s with waiter := .exited, chdone := true }
    | .exited => none
  | .fetcher => stepFetcher env s
  | .render i => stepRender s i

/-- Run a schedule from a state. -/
def run (env : Env) : LVState → List Move → Option LVState
  | s, [] => some s
  | s, m :: ms => (step env s m).bind (fun t => run env t ms)

/-- The action `listVolumes` under a schedule: the state the invocation is
in after the moves of the schedule, `none` when the schedule asks for a
move that is not enabled. -/
def listVolumes (env : Env) (sched : List Move) : Option LVState :=
  run env (listVolumesInit env) sched

/-- The items the i-th render goroutine has written so far, in order. -/
def rendered (s : LVState) (i : Nat) : List VolumeInfo :=
  (s.writes.filter (fun w => w.task == i)).map (fun w => w.item)

/-- The pages the fetch loop is to see, as the specification words it:
fetch number `idx` is made with `tok`; it is the last one when paging is
off or it answers the empty token, and otherwise the next fetch is made
with exactly the token it answered. `none` when a fetch fails or `fuel`
fetches do not reach the end. -/
def fetchChain (env : Env) (maxEntries : Nat) : Nat → Nat → String →
    Option (List (String × List VolumeInfo))
  | 0, _, _ => none
  | fuel + 1, idx, tok =>
    match env.client.ListVolumes idx env.version maxEntries tok with
    | .error _ => none
    | .ok (vols, next) =>
      if !env.argsListVolumes.paging || next == "" then some [(tok, vols)]
      else (fetchChain env maxEntries fuel (idx + 1) next).map (fun ps => (tok, vols) :: ps)

/-! ## The moves as a relation, and what the proofs count -/

/-- The moves of the machine as a relation between a state and the state
one move later, one constructor per program point. -/
inductive Step (env : Env) : LVState → LVState → Prop
  | mainDone (s : LVState) : s.main = .select → s.chdone = true →
    Step env s { s with main := .returned none }
  | recvFetcher (s : LVState) (e : GoError) : s.main = .select → s.fetcher = .sendErr e →
    Step env s { s with main := .returned (some e), fetcher := .returnedErr }
  | recvRender (s : LVState) (i : Nat) (e : GoError) : s.main = .select →
    s.renders.get? i = some (.sendErr e) →
    Step env s { s with main := .returned (some e), renders := s.renders.set i .returnedErr }
  | waitOver (s : LVState) : s.waiter = .wait → s.wg = 0 →
    Step env s { s with waiter := .close }
  | closeDone (s : LVState) : s.waiter = .close →
    Step env s { s with waiter := .exited, chdone := true }
  | fetchErr (s : LVState) (tok e : String) : s.fetcher = .call tok →
    env.client.ListVolumes s.rpcs.length env.version s.maxEntries tok = .error e →
    Step env s { s with
      rpcs := s.rpcs ++ [RpcCall.ListVolumes env.version s.maxEntries tok],
      fetcher := .sendErr (.foreign e) }
  | fetchOk (s : LVState) (tok : String) (vols : List VolumeInfo) (next : String) :
    s.fetcher = .call tok →
    env.client.ListVolumes s.rpcs.length env.version s.maxEntries tok = .ok (vols, next) →
    Step env s { s with
      rpcs := s.rpcs ++ [RpcCall.ListVolumes env.version s.maxEntries tok],
      fetcher := .add vols next }
  | add (s : LVState) (vols : List VolumeInfo) (next : String) : s.fetcher = .add vols next →
    Step env s { s with wg := s.wg + 1, fetcher := .spawn vols next }
  | spawn (s : LVState) (vols : List VolumeInfo) (next : String) :
    s.fetcher = .spawn vols next →
    Step env s { s with
      renders := s.renders ++ [.loop vols],
      fetcher := if !env.argsListVolumes.paging || next == "" then .done else .call next }
  | fetchDone (s : LVState) : s.fetcher = .done →
    Step env s { s with wg := s.wg - 1, fetcher := .exited }
  | renderDone (s : LVState) (i : Nat) : s.renders.get? i = some (.loop []) →
    Step env s { s with wg := s.wg - 1, renders := s.renders.set i .exited }
  | renderItem (s : LVState) (i : Nat) (tpl : Template) (v : VolumeInfo)
      (vs : List VolumeInfo) : s.tpl = some tpl →
    s.renders.get? i = some (.loop (v :: vs)) →
    Step env s { s with
      writes := s.writes ++ [⟨i, v, (tpl.Execute (.volumeInfo v)).1⟩],
      renders := s.renders.set i
        (match (tpl.Execute (.volumeInfo v)).2 with
         | none => .loop vs
         | some e => .sendErr (.foreign e)) }

/-- The units of the wait group the fetch goroutine holds: its own until
the final `wg.Done()`, and the one it added for a render goroutine it has
not started yet. -/
def fetchUnits : FetchPc → Nat
  | .spawn _ _ => 2
  | .exited => 0
  | _ => 1

/-- The unit of the wait group a render goroutine holds until its
`wg.Done()`. -/
def renderUnits : RenderPc → Nat
  | .exited => 0
  | _ => 1

/-- The bookkeeping of the wait group and of `chdone`, true of every state
an invocation that started its goroutines can reach: the counter is the
number of units held, the waiter is past `wg.Wait()` only with the counter
at zero, and `chdone` is closed exactly when the waiter has finished. -/
def Core (s : LVState) : Prop :=
  s.wg = ((fetchUnits s.fetcher + (s.renders.map renderUnits).sum : Nat) : Int) ∧
  (s.waiter ≠ .wait → s.wg = 0) ∧
  (s.chdone = true ↔ s.waiter = .exited)

/-- The steps a render goroutine has left when it meets no error. -/
def renderLeft : RenderPc → Nat
  | .loop rest => rest.length + 1
  | _ => 0

/-- The steps the pages still to fetch cost: three of the fetch goroutine
and one per item plus one of the render goroutine, for each page. -/
def pagesLeft (pages : List (String × List VolumeInfo)) : Nat :=
  (pages.map (fun p => p.2.length + 4)).sum

/-- The steps the fetch goroutine and the render goroutines it has yet to
start have left, on a run over `pages` without error. -/
def fetchLeft (pages : List (String × List VolumeInfo)) (s : LVState) : Nat :=
  match s.fetcher with
  | .call _ => pagesLeft (pages.drop s.rpcs.length) + 1
  | .add vols _ => vols.length + 3 + pagesLeft (pages.drop s.rpcs.length) + 1
  | .spawn vols _ => vols.length + 2 + pagesLeft (pages.drop s.rpcs.length) + 1
  | .done => 1
  | _ => 0

/-- The number of moves left on a run over `pages` without error: one for
the `select`, two for the waiter, and those of the fetch and render
goroutines. -/
def movesLeft (pages : List (String × List VolumeInfo)) (s : LVState) : Nat :=
  (match s.main with | .select => 1 | .returned _ => 0) +
  (match s.waiter with | .wait => 2 | .close => 1 | .exited => 0) +
  fetchLeft pages s + (s.renders.map renderLeft).sum

/-- The state of a run over `pages` on which no fetch and no render fails:
the calls made are the first calls of the chain, the fetch goroutine
stands where the chain says, the i-th render goroutine has written a
prefix of the i-th page and holds the rest, and the caller has returned
only nil and only after `chdone` was closed. -/
def ChainInv (env : Env) (tpl : Template) (pages : List (String × List VolumeInfo))
    (s : LVState) : Prop :=
  s.maxEntries = env.argsListVolumes.maxEntries ∧
  s.tpl = some tpl ∧
  s.rpcs = (pages.take s.rpcs.length).map
    (fun p => RpcCall.ListVolumes env.version s.maxEntries p.1) ∧
  s.rpcs.length ≤ pages.length ∧
  (match s.fetcher with
   | .call tok => s.renders.length = s.rpcs.length ∧
     ∃ fuel, fetchChain env s.maxEntries fuel s.rpcs.length tok =
       some (pages.drop s.rpcs.length)
   | .add vols next | .spawn vols next =>
     s.renders.length + 1 = s.rpcs.length ∧
     (∃ tok, pages.get? s.renders.length = some (tok, vols)) ∧
     if !env.argsListVolumes.paging || next == "" then s.rpcs.length = pages.length
     else ∃ fuel, fetchChain env s.maxEntries fuel s.rpcs.length next =
       some (pages.drop s.rpcs.length)
   | .done | .exited => s.renders.length = s.rpcs.length ∧ s.rpcs.length = pages.length
   | .sendErr _ | .returnedErr => False) ∧
  (∀ i r, s.renders.get? i = some r → ∃ p, pages.get? i = some p ∧
    match r with
    | .loop rest => rendered s i ++ rest = p.2
    | .exited => rendered s i = p.2
    | _ => False) ∧
  (∀ w ∈ s.writes, w.task < s.renders.length ∧
    w.text = (tpl.Execute (.volumeInfo w.item)).1) ∧
  (∀ r, s.main = .returned r → r = none ∧ s.chdone = true)

/-- The steps the fetch goroutine and the render goroutine it has yet to
start have left, on a run whose first fetch answers `n` items and whose
second fetch fails. -/
def fetchLeftErr (n : Nat) (s : LVState) : Nat :=
  match s.fetcher with
  | .call _ => if s.rpcs.length = 0 then n + 5 else 1
  | .add _ _ => n + 4
  | .spawn _ _ => n + 3
  | _ => 0

/-- The number of moves left on a run whose first fetch answers `n` items
and whose second fetch fails. -/
def movesLeftErr (n : Nat) (s : LVState) : Nat :=
  (match s.main with | .select => 1 | .returned _ => 0) +
  fetchLeftErr n s + (s.renders.map renderLeft).sum

/-- Where the fetch goroutine may stand on a run whose first fetch answers
`vols` and the token `t1` and whose second fetch fails with `e`, given the
calls made, the caller's program point and the number of render
goroutines started: before the first call, between the first answer and
the second call, blocked sending `e` with the caller still in the
`select`, or past that send with `e` returned; never at or past the
final `wg.Done()`. -/
def FailFetch (env : Env) (vols : List VolumeInfo) (t1 e : String) (maxEntries : Nat)
    (rpcs : List RpcCall) (main : MainPc) (started : Nat) : FetchPc → Prop
  | .call tok =>
    (rpcs = [] ∧ tok = env.argsListVolumes.startingToken ∧ started = 0) ∨
    (rpcs = [.ListVolumes env.version maxEntries env.argsListVolumes.startingToken] ∧
      tok = t1 ∧ started = 1)
  | .add vs next | .spawn vs next =>
    rpcs = [.ListVolumes env.version maxEntries env.argsListVolumes.startingToken] ∧
    vs = vols ∧ next = t1 ∧ started = 0
  | .sendErr x =>
    x = .foreign e ∧ main = .select ∧ started = 1 ∧
    rpcs = [.ListVolumes env.version maxEntries env.argsListVolumes.startingToken,
      .ListVolumes env.version maxEntries t1]
  | .returnedErr =>
    main = .returned (some (.foreign e)) ∧ started = 1 ∧
    rpcs = [.ListVolumes env.version maxEntries env.argsListVolumes.startingToken,
      .ListVolumes env.version maxEntries t1]
  | .done | .exited => False

/-- The state of a run whose first fetch answers `vols` and the token
`t1` and whose second fetch fails with `e`, no render failing: `chdone` is
open and the waiter still waits, the fetch goroutine stands where
`FailFetch` allows, no render goroutine sends, and the caller has
returned only `e`, received from the fetch goroutine. -/
def FailInv (env : Env) (tpl : Template) (vols : List VolumeInfo) (t1 e : String)
    (s : LVState) : Prop :=
  s.maxEntries = env.argsListVolumes.maxEntries ∧
  s.tpl = some tpl ∧
  s.chdone = false ∧
  s.waiter = .wait ∧
  FailFetch env vols t1 e s.maxEntries s.rpcs s.main s.renders.length s.fetcher ∧
  (∀ i r, s.renders.get? i = some r → (∃ rest, r = .loop rest) ∨ r = .exited) ∧
  (∀ r, s.main = .returned r → r = some (.foreign e) ∧ s.fetcher = .returnedErr)

/-- The state of any run with a maximum-entries value in range: the local
`maxEntries` is that value, every call made is a ListVolumes call with it,
and every error in flight or returned comes from the RPC client or the
template engine. -/
def RangeInv (env : Env) (s : LVState) : Prop :=
  s.maxEntries = env.argsListVolumes.maxEntries ∧
  (∀ c ∈ s.rpcs, ∃ tok, c = RpcCall.ListVolumes env.version
    env.argsListVolumes.maxEntries tok) ∧
  (∀ x, s.fetcher = .sendErr x → ∃ msg, x = .foreign msg) ∧
  (∀ i x, s.renders.get? i = some (.sendErr x) → ∃ msg, x = .foreign msg) ∧
  (∀ x, s.main = .returned (some x) → ∃ msg, x = .foreign msg)

/-! ## Concrete stubs and inputs -/

/-- A controller stub on which every call succeeds: two pages of volumes,
the first answered with the continuation token `t1`, and a capacity of
42. -/
def okClient : Client where
  CreateVolume := fun _ _ _ _ _ _ _ => .ok ⟨none⟩
  DeleteVolume := fun _ _ _ => none
  ControllerPublishVolume := fun _ _ _ _ _ => .ok []
  ControllerUnpublishVolume := fun _ _ _ _ => none
  ValidateVolumeCapabilities := fun _ _ _ => .ok "supported"
  ListVolumes := fun _ _ _ tok =>
    if tok == "" then .ok ([⟨some ⟨[("id", "A")]⟩⟩, ⟨some ⟨[("id", "B")]⟩⟩], "t1")
    else .ok ([⟨some ⟨[("id", "C")]⟩⟩], "")
  GetCapacity := fun _ => .ok 42

/-- A template engine that compiles every format string but `{{` and
whose templates write one fixed line per value. -/
def lineParse (format : String) : Except String Template :=
  if format == "\x7b\x7b" then .error "template: unclosed action"
  else .ok ⟨fun _ => ("volume\n", none)⟩

/-- An invocation with no positional argument and a format string that
does not compile. -/
def noArgsEnv : Env :=
  { format := "\x7b\x7b", version := "0.0.0", positional := [],
    client := okClient, Parse := lineParse }

/-- An invocation of `controllerpublishvolume` or
`controllerunpublishvolume` on the volume `id=1` with `-metadata k=v` and
no `-nodeID`. -/
def publishEnv : Env :=
  { format := "", version := "0.0.0", positional := ["id=1"],
    argsControllerPublishVolume := { volumeMD := [("k", "v")] },
    argsControllerUnpublishVolume := { volumeMD := [("k", "v")] },
    client := okClient, Parse := lineParse }

/-- An invocation of `deletevolume -metadata k=v id=1`. -/
def deleteEnv : Env :=
  { format := "", version := "0.0.0", positional := ["id=1"],
    argsDeleteVolume := { volumeMD := [("k", "v")] },
    client := okClient, Parse := lineParse }

/-- An invocation of `validatevolumecapabilities -t ext4 -o noatime id=1`:
the flags of the command fill its own container and leave
`argsCreateVolume` at its zero value. -/
def validateEnv : Env :=
  { format := "", version := "0.0.0", positional := ["id=1"],
    argsValidateVolumeCapabilities := { fsType := "ext4", mntFlags := ["noatime"] },
    client := okClient, Parse := lineParse }

/-- An invocation with one identifier token and no flag. -/
def plainEnv : Env :=
  { format := "", version := "0.0.0", positional := ["id=1"],
    client := okClient, Parse := lineParse }

/-- An invocation of `listvolumes -paging` against `okClient`: the pages
are A and B under the token `t1`, then C under the empty token. -/
def pagingEnv : Env :=
  { format := "", version := "0.0.0", positional := [],
    argsListVolumes := { startingToken := "", maxEntries := 0, paging := true },
    client := okClient, Parse := lineParse }

/-- The template `lineParse` compiles every other format string to. -/
def lineTemplate : Template := ⟨fun _ => ("volume\n", none)⟩

/-- A complete schedule of `pagingEnv` in which the second fetch overtakes
the rendering of the first page. -/
def pagingSchedule : List Move :=
  [.fetcher, .fetcher, .fetcher, .render 0, .fetcher, .fetcher, .fetcher, .render 1,
   .render 0, .render 1, .fetcher, .render 0, .waiter, .waiter, .mainDone]

/-- An invocation of `listvolumes -maxEntries 4294967296`. -/
def rangeEnv : Env :=
  { format := "", version := "0.0.0", positional := [],
    argsListVolumes := { maxEntries := 4294967296 },
    client := okClient, Parse := lineParse }

/-- A controller stub whose first ListVolumes call answers one volume and
the token `t1` and whose second call fails. -/
def failingClient : Client :=
  { okClient with
    ListVolumes := fun n _ _ _ =>
      if n == 0 then .ok ([⟨some ⟨[("id", "A")]⟩⟩], "t1") else .error "rpc: unavailable" }

/-- An invocation of `listvolumes -paging` against `failingClient`. -/
def failingEnv : Env :=
  { format := "", version := "0.0.0", positional := [],
    argsListVolumes := { startingToken := "", maxEntries := 0, paging := true },
    client := failingClient, Parse := lineParse }

/-- An invocation with the identifier tokens `a=b=c`, `x`, `a=1` and no
flag. -/
def tokensEnv : Env :=
  { format := "", version := "0.0.0", positional := ["a=b=c", "x", "a=1"],
    client := okClient, Parse := lineParse }

/-! # Theorems -/

/-! ## The volume identifier parser -/

theorem index_none (s : List Char) (c : Char) (h : c ∉ s) : index s c = none := by
  induction s with
  | nil => rfl
  | cons a s ih =>
    simp only [List.mem_cons, not_or] at h
    simp [index, Ne.symm h.1, ih h.2]

theorem index_some (s : List Char) (c : Char) (h : c ∈ s) :
    ∃ m, index s c = some m ∧ s.take m = s.takeWhile (· != c) ∧
      s.drop (m + 1) = (s.dropWhile (· != c)).drop 1 := by
  induction s with
  | nil => simp at h
  | cons a s ih =>
    by_cases hac : a = c
    · subst hac
      exact ⟨0, by simp [index], by simp [List.takeWhile], by simp [List.dropWhile]⟩
    · have hs : c ∈ s := by
        rcases List.mem_cons.mp h with h1 | h1
        · exact absurd h1.symm hac
        · exact h1
      obtain ⟨m, hm, ht, hd⟩ := ih hs
      have hb : (a != c) = true := by simp [hac]
      refine ⟨m + 1, by simp [index, hac, hm], ?_, ?_⟩
      · simp [List.takeWhile, hb, ht]
      · simp [List.dropWhile, hb, hd]

theorem takeWhile_of_not_mem (s : List Char) (c : Char) (h : c ∉ s) :
    s.takeWhile (· != c) = s ∧ s.dropWhile (· != c) = [] := by
  induction s with
  | nil => simp
  | cons a s ih =>
    simp only [List.mem_cons, not_or] at h
    have := ih h.2
    have hb : (a != c) = true := by simp [Ne.symm h.1]
    simp [List.takeWhile, List.dropWhile, hb, this.1, this.2]

theorem splitN_two (t : String) :
    SplitN t '=' 2 = if '=' ∈ t.data then [tokenKey t, tokenValue t] else [t] := by
  by_cases h : '=' ∈ t.data
  · obtain ⟨m, hm, ht, hd⟩ := index_some t.data '=' h
    simp [SplitN, genSplit, hm, h, tokenKey, tokenValue, ht, hd]
  · simp [SplitN, genSplit, index_none _ _ h, h]

theorem parseToken_eq (m : GoMap) (t : String) :
    parseToken m t = if '=' ∈ t.data then m.set (tokenKey t) (tokenValue t) else m.set t "" := by
  unfold parseToken
  rw [splitN_two]
  by_cases h : '=' ∈ t.data <;> simp [h]

theorem parseToken_key_value (m : GoMap) (t : String) :
    parseToken m t = m.set (tokenKey t) (tokenValue t) := by
  rw [parseToken_eq]
  by_cases h : '=' ∈ t.data
  · simp [h]
  · have := takeWhile_of_not_mem t.data '=' h
    simp [h, tokenKey, tokenValue, this.1, this.2]

theorem foldl_range_take {α : Type} (f : α → String → α) (l : List String) (init : α) :
    ∀ n, n ≤ l.length →
      (List.range n).foldl (fun m x => f m (l.getD x "")) init = (l.take n).foldl f init := by
  intro n
  induction n with
  | zero => intro _; simp
  | succ n ih =>
    intro hn
    have hlt : n < l.length := hn
    have ht : l.take (n + 1) = l.take n ++ [l[n]] := by
      rw [List.take_succ]
      simp [List.getElem?_eq_getElem hlt]
    rw [List.range_succ, List.foldl_append, ih (Nat.le_of_lt hlt), ht, List.foldl_append]
    simp [List.getD, List.getElem?_eq_getElem hlt]

theorem parse_loop_eq_foldl (tokens : List String) :
    parseVolumeID tokens = tokens.foldl parseToken [] := by
  unfold parseVolumeID NArg Arg
  rw [foldl_range_take parseToken tokens [] tokens.length (Nat.le_refl _), List.take_length]


namespace GoMap

theorem get?_set_same (m : GoMap) (k v : String) : (m.set k v).get? k = some v := by
  simp [set, get?, List.find?]

theorem get?_set_other (m : GoMap) (k v k' : String) (h : k' ≠ k) :
    (m.set k v).get? k' = m.get? k' := by
  have hk : (k == k') = false := by simpa using Ne.symm h
  simp only [set, get?, List.find?, hk]
  congr 1
  induction m with
  | nil => rfl
  | cons e m ih =>
    by_cases he : e.1 = k
    · have h1 : (e.1 != k) = false := by simp [he]
      have h2 : (e.1 == k') = false := by simpa [he] using Ne.symm h
      simp [List.filter, h1, List.find?, h2, ih]
    · have h1 : (e.1 != k) = true := by simp [he]
      simp only [List.filter, h1, List.find?]
      cases (e.1 == k') <;> simp [ih]

theorem keys_set (m : GoMap) (k v : String) :
    (m.set k v).keys = k :: m.keys.filter (fun x => x != k) := by
  simp only [set, keys, List.map_cons, List.cons.injEq, true_and]
  induction m with
  | nil => rfl
  | cons e m ih =>
    cases h : (e.1 != k) <;> simp [List.filter, h, ih]

theorem mem_keys_set (m : GoMap) (k v x : String) :
    x ∈ (m.set k v).keys ↔ x = k ∨ x ∈ m.keys := by
  rw [keys_set]
  simp only [List.mem_cons, List.mem_filter, bne_iff_ne, ne_eq]
  constructor
  · rintro (h | h)
    · exact Or.inl h
    · exact Or.inr h.1
  · rintro (h | h)
    · exact Or.inl h
    · by_cases hx : x = k
      · exact Or.inl hx
      · exact Or.inr ⟨h, hx⟩

theorem nodup_keys_set (m : GoMap) (k v : String) (h : m.keys.Nodup) :
    (m.set k v).keys.Nodup := by
  rw [keys_set]
  refine List.nodup_cons.mpr ⟨?_, h.filter _⟩
  simp [List.mem_filter]

end GoMap

theorem foldl_set_keys (tokens : List String) (m : GoMap) (x : String) :
    x ∈ (tokens.foldl (fun m t => m.set (tokenKey t) (tokenValue t)) m).keys ↔
      x ∈ m.keys ∨ ∃ t ∈ tokens, tokenKey t = x := by
  induction tokens generalizing m with
  | nil => simp
  | cons t ts ih =>
    rw [List.foldl_cons, ih, GoMap.mem_keys_set]
    constructor
    · rintro ((h | h) | ⟨u, hu, hx⟩)
      · exact Or.inr ⟨t, List.mem_cons_self _ _, h.symm⟩
      · exact Or.inl h
      · exact Or.inr ⟨u, List.mem_cons_of_mem _ hu, hx⟩
    · rintro (h | ⟨u, hu, hx⟩)
      · exact Or.inl (Or.inr h)
      · rcases List.mem_cons.mp hu with h1 | h1
        · exact Or.inl (Or.inl (by rw [← hx, h1]))
        · exact Or.inr ⟨u, h1, hx⟩

theorem foldl_set_nodup (tokens : List String) (m : GoMap) (h : m.keys.Nodup) :
    (tokens.foldl (fun m t => m.set (tokenKey t) (tokenValue t)) m).keys.Nodup := by
  induction tokens generalizing m with
  | nil => exact h
  | cons t ts ih => exact ih _ (GoMap.nodup_keys_set m _ _ h)

theorem foldl_set_untouched (tokens : List String) (m : GoMap) (k : String)
    (h : ∀ u ∈ tokens, tokenKey u ≠ k) :
    (tokens.foldl (fun m t => m.set (tokenKey t) (tokenValue t)) m).get? k = m.get? k := by
  induction tokens generalizing m with
  | nil => rfl
  | cons t ts ih =>
    rw [List.foldl_cons, ih _ (fun u hu => h u (List.mem_cons_of_mem _ hu))]
    exact GoMap.get?_set_other m _ _ k (Ne.symm (h t (List.mem_cons_self _ _)))

theorem foldl_set_last (pre post : List String) (t : String) (m : GoMap)
    (h : ∀ u ∈ post, tokenKey u ≠ tokenKey t) :
    ((pre ++ t :: post).foldl (fun m t => m.set (tokenKey t) (tokenValue t)) m).get?
      (tokenKey t) = some (tokenValue t) := by
  rw [List.foldl_append, List.foldl_cons, foldl_set_untouched post _ _ h]
  exact GoMap.get?_set_same _ _ _

theorem parseVolumeID_eq_foldl_set (tokens : List String) :
    parseVolumeID tokens =
      tokens.foldl (fun (m : GoMap) t => m.set (tokenKey t) (tokenValue t)) [] := by
  rw [parse_loop_eq_foldl]
  congr 1
  funext m t
  exact parseToken_key_value m t

theorem parseVolumeID_eq_spec (tokens : List String) :
    parseVolumeID tokens = specVolumeID tokens := by
  rw [parse_loop_eq_foldl]
  unfold specVolumeID
  congr 1
  funext m t
  exact parseToken_eq m t

theorem deleteVolume_rpcs_mem (env : Env) (c : RpcCall) (hc : c ∈ (deleteVolume env).rpcs) :
    c = .DeleteVolume env.version (some ⟨parseVolumeID env.positional⟩) none := by
  simp only [deleteVolume] at hc
  split at hc
  · simp at hc
  · split at hc <;> simpa using hc

theorem controllerPublishVolume_rpcs_mem (env : Env) (c : RpcCall)
    (hc : c ∈ (controllerPublishVolume env).rpcs) :
    ∃ md nid ro, c = .ControllerPublishVolume env.version
      (some ⟨parseVolumeID env.positional⟩) md nid ro := by
  simp only [controllerPublishVolume] at hc
  split at hc
  · simp at hc
  · split at hc
    · simp at hc
    · split at hc <;> exact ⟨_, _, _, by simpa using hc⟩

theorem controllerUnpublishVolume_rpcs_mem (env : Env) (c : RpcCall)
    (hc : c ∈ (controllerUnpublishVolume env).rpcs) :
    ∃ md nid, c = .ControllerUnpublishVolume env.version
      (some ⟨parseVolumeID env.positional⟩) md nid := by
  simp only [controllerUnpublishVolume] at hc
  split at hc
  · simp at hc
  · split at hc <;> exact ⟨_, _, by simpa using hc⟩

theorem validateVolumeCapabilities_rpcs_mem (env : Env) (c : RpcCall)
    (hc : c ∈ (validateVolumeCapabilities env).rpcs) :
    ∃ caps, c = .ValidateVolumeCapabilities env.version
      (some ⟨some ⟨parseVolumeID env.positional⟩⟩) caps := by
  simp only [validateVolumeCapabilities] at hc
  split at hc
  · simp at hc
  · split at hc
    · exact ⟨_, by simpa using hc⟩
    · split at hc <;> exact ⟨_, by simpa using hc⟩

theorem deleteVolume_rpcs (env : Env) (h : NArg env.positional ≠ 0) :
    (deleteVolume env).rpcs =
      [.DeleteVolume env.version (some ⟨parseVolumeID env.positional⟩) none] := by
  simp only [deleteVolume, beq_iff_eq, h, if_false]
  split <;> rfl

theorem controllerPublishVolume_rpcs (env : Env) (tpl : Template)
    (h : NArg env.positional ≠ 0) (hp : env.Parse env.format = .ok tpl) :
    (controllerPublishVolume env).rpcs =
      [.ControllerPublishVolume env.version (some ⟨parseVolumeID env.positional⟩)
        (if env.argsControllerPublishVolume.volumeMD.len > 0
          then some ⟨env.argsControllerPublishVolume.volumeMD⟩ else none)
        (if env.argsControllerPublishVolume.nodeID.len > 0
          then some ⟨env.argsControllerPublishVolume.nodeID⟩ else none)
        env.argsControllerPublishVolume.readOnly] := by
  simp only [controllerPublishVolume, beq_iff_eq, h, if_false, hp]
  split <;> rfl

theorem controllerUnpublishVolume_rpcs (env : Env) (h : NArg env.positional ≠ 0) :
    (controllerUnpublishVolume env).rpcs =
      [.ControllerUnpublishVolume env.version (some ⟨parseVolumeID env.positional⟩)
        (if env.argsControllerUnpublishVolume.volumeMD.len > 0
          then some ⟨env.argsControllerUnpublishVolume.volumeMD⟩ else none)
        (if env.argsControllerUnpublishVolume.nodeID.len > 0
          then some ⟨env.argsControllerUnpublishVolume.nodeID⟩ else none)] := by
  simp only [controllerUnpublishVolume, beq_iff_eq, h, if_false]
  split <;> rfl

theorem validateVolumeCapabilities_rpcs (env : Env) (h : NArg env.positional ≠ 0) :
    (validateVolumeCapabilities env).rpcs =
      [.ValidateVolumeCapabilities env.version
        (some ⟨some ⟨parseVolumeID env.positional⟩⟩)
        (buildCaps env.argsValidateVolumeCapabilities.fsType
          env.argsCreateVolume.mntFlags)] := by
  simp only [validateVolumeCapabilities, beq_iff_eq, h, if_false]
  split
  · rfl
  · split <;> rfl

/-- C1: the map the positional loop builds is the specification's
left-to-right fold (a bare token sets its key to the empty string, a token
with `=` sets the text before the first `=` to all the text after it);
its keys are exactly the keys of the tokens, each once; a key holds the
value of the last token that has it; every DeleteVolume,
ControllerPublishVolume, ControllerUnpublishVolume and
ValidateVolumeCapabilities call carries that map as the volume
identifier; and with at least one token `deleteVolume`,
`controllerUnpublishVolume` and `validateVolumeCapabilities` issue exactly
one call, and `controllerPublishVolume` exactly one once the format
compiles, each with that map as the volume identifier. -/
theorem volume_id_is_token_fold (tokens : List String) :
    parseVolumeID tokens = specVolumeID tokens ∧
    (∀ k, k ∈ (parseVolumeID tokens).keys ↔ ∃ t ∈ tokens, tokenKey t = k) ∧
    (parseVolumeID tokens).keys.Nodup ∧
    (∀ t ∈ tokens, '=' ∉ t.data → tokenKey t = t ∧ tokenValue t = "") ∧
    (∀ pre t post, tokens = pre ++ t :: post →
      (∀ u ∈ post, tokenKey u ≠ tokenKey t) →
      (parseVolumeID tokens).get? (tokenKey t) = some (tokenValue t)) ∧
    (∀ env : Env, env.positional = tokens →
      (∀ c ∈ (deleteVolume env).rpcs, ∃ md,
        c = .DeleteVolume env.version (some ⟨specVolumeID tokens⟩) md) ∧
      (∀ c ∈ (controllerPublishVolume env).rpcs, ∃ md nid ro,
        c = .ControllerPublishVolume env.version (some ⟨specVolumeID tokens⟩) md nid ro) ∧
      (∀ c ∈ (controllerUnpublishVolume env).rpcs, ∃ md nid,
        c = .ControllerUnpublishVolume env.version (some ⟨specVolumeID tokens⟩) md nid) ∧
      (∀ c ∈ (validateVolumeCapabilities env).rpcs, ∃ caps,
        c = .ValidateVolumeCapabilities env.version
          (some ⟨some ⟨specVolumeID tokens⟩⟩) caps) ∧
      (NArg tokens ≠ 0 →
        (deleteVolume env).rpcs =
          [.DeleteVolume env.version (some ⟨specVolumeID tokens⟩) none] ∧
        (∀ tpl, env.Parse env.format = .ok tpl →
          (controllerPublishVolume env).rpcs =
            [.ControllerPublishVolume env.version (some ⟨specVolumeID tokens⟩)
              (if env.argsControllerPublishVolume.volumeMD.len > 0
                then some ⟨env.argsControllerPublishVolume.volumeMD⟩ else none)
              (if env.argsControllerPublishVolume.nodeID.len > 0
                then some ⟨env.argsControllerPublishVolume.nodeID⟩ else none)
              env.argsControllerPublishVolume.readOnly]) ∧
        (controllerUnpublishVolume env).rpcs =
          [.ControllerUnpublishVolume env.version (some ⟨specVolumeID tokens⟩)
            (if env.argsControllerUnpublishVolume.volumeMD.len > 0
              then some ⟨env.argsControllerUnpublishVolume.volumeMD⟩ else none)
            (if env.argsControllerUnpublishVolume.nodeID.len > 0
              then some ⟨env.argsControllerUnpublishVolume.nodeID⟩ else none)] ∧
        (validateVolumeCapabilities env).rpcs =
          [.ValidateVolumeCapabilities env.version (some ⟨some ⟨specVolumeID tokens⟩⟩)
            (buildCaps env.argsValidateVolumeCapabilities.fsType
              env.argsCreateVolume.mntFlags)])) := by
  refine ⟨parseVolumeID_eq_spec tokens, ?_, ?_, ?_, ?_, ?_⟩
  · intro k
    rw [parseVolumeID_eq_foldl_set, foldl_set_keys]
    simp [GoMap.keys]
  · rw [parseVolumeID_eq_foldl_set]
    exact foldl_set_nodup tokens [] List.nodup_nil
  · intro t _ h
    have := takeWhile_of_not_mem t.data '=' h
    simp [tokenKey, tokenValue, this.1, this.2]
  · intro pre t post ht h
    rw [parseVolumeID_eq_foldl_set, ht]
    exact foldl_set_last pre post t [] h
  · intro env henv
    rw [← parseVolumeID_eq_spec, ← henv]
    refine ⟨?_, controllerPublishVolume_rpcs_mem env, controllerUnpublishVolume_rpcs_mem env,
      validateVolumeCapabilities_rpcs_mem env, ?_⟩
    · intro c hc
      exact ⟨none, deleteVolume_rpcs_mem env c hc⟩
    · intro hn
      exact ⟨deleteVolume_rpcs env hn,
        fun tpl hp => controllerPublishVolume_rpcs env tpl hn hp,
        controllerUnpublishVolume_rpcs env hn, validateVolumeCapabilities_rpcs env hn⟩

/-- C1 on the tokens `a=b=c`, `x`, `a=1`: the value of `a` is that of its
last token, the value `b=c` of the first is overwritten, and each of the
four actions issues one call whose volume identifier is the parsed
map. -/
theorem volume_id_is_token_fold_witness :
    (tokensEnv.positional = ["a=b=c", "x", "a=1"] ∧ NArg ["a=b=c", "x", "a=1"] ≠ 0 ∧
      tokensEnv.Parse tokensEnv.format = .ok lineTemplate) ∧
    parseVolumeID ["a=b=c", "x", "a=1"] = [("a", "1"), ("x", "")] ∧
    parseVolumeID ["a=b=c"] = [("a", "b=c")] ∧
    (parseVolumeID ["a=b=c", "x", "a=1"]).get? (tokenKey "a=1") = some (tokenValue "a=1") ∧
    (∀ c ∈ (deleteVolume tokensEnv).rpcs, ∃ md,
      c = .DeleteVolume "0.0.0" (some ⟨specVolumeID ["a=b=c", "x", "a=1"]⟩) md) ∧
    (deleteVolume tokensEnv).rpcs =
      [.DeleteVolume "0.0.0" (some ⟨[("a", "1"), ("x", "")]⟩) none] ∧
    (controllerPublishVolume tokensEnv).rpcs =
      [.ControllerPublishVolume "0.0.0" (some ⟨[("a", "1"), ("x", "")]⟩) none none false] ∧
    (controllerUnpublishVolume tokensEnv).rpcs =
      [.ControllerUnpublishVolume "0.0.0" (some ⟨[("a", "1"), ("x", "")]⟩) none none] ∧
    (validateVolumeCapabilities tokensEnv).rpcs =
      [.ValidateVolumeCapabilities "0.0.0" (some ⟨some ⟨[("a", "1"), ("x", "")]⟩⟩) []] :=
  ⟨⟨rfl, by decide, rfl⟩, by decide, by decide,
    (volume_id_is_token_fold ["a=b=c", "x", "a=1"]).2.2.2.2.1 ["a=b=c", "x"] "a=1" [] rfl
      (by simp),
    ((volume_id_is_token_fold ["a=b=c", "x", "a=1"]).2.2.2.2.2 tokensEnv rfl).1,
    (((volume_id_is_token_fold ["a=b=c", "x", "a=1"]).2.2.2.2.2 tokensEnv rfl).2.2.2.2
      (by decide)).1.trans (by decide),
    ((((volume_id_is_token_fold ["a=b=c", "x", "a=1"]).2.2.2.2.2 tokensEnv rfl).2.2.2.2
      (by decide)).2.1 lineTemplate rfl).trans (by decide),
    (((volume_id_is_token_fold ["a=b=c", "x", "a=1"]).2.2.2.2.2 tokensEnv rfl).2.2.2.2
      (by decide)).2.2.1.trans (by decide),
    (((volume_id_is_token_fold ["a=b=c", "x", "a=1"]).2.2.2.2.2 tokensEnv rfl).2.2.2.2
      (by decide)).2.2.2.trans (by decide)⟩

/-! ## Usage errors -/

/-- C6: an action whose required positional input is missing returns its
usage error, issues no RPC and writes nothing, whatever the flag
containers and the format string hold: `createVolume` when the first
positional argument is empty, the four identifier taking actions when
there is no positional argument. -/
theorem missing_positional_usage_error (env : Env) :
    (Arg env.positional 0 = "" →
      (createVolume env).err = some (.errUsage "missing volume name") ∧
      (createVolume env).rpcs = [] ∧ (createVolume env).stdout = "") ∧
    (NArg env.positional = 0 →
      ((deleteVolume env).err = some (.errUsage "missing volume ID") ∧
        (deleteVolume env).rpcs = [] ∧ (deleteVolume env).stdout = "") ∧
      ((controllerPublishVolume env).err = some (.errUsage "missing volume ID") ∧
        (controllerPublishVolume env).rpcs = [] ∧
        (controllerPublishVolume env).stdout = "") ∧
      ((controllerUnpublishVolume env).err = some (.errUsage "missing volume ID") ∧
        (controllerUnpublishVolume env).rpcs = [] ∧
        (controllerUnpublishVolume env).stdout = "") ∧
      ((validateVolumeCapabilities env).err = some (.errUsage "missing volume ID") ∧
        (validateVolumeCapabilities env).rpcs = [] ∧
        (validateVolumeCapabilities env).stdout = "")) := by
  constructor
  · intro h
    simp [createVolume, h]
  · intro h
    simp [deleteVolume, controllerPublishVolume, controllerUnpublishVolume,
      validateVolumeCapabilities, h]

/-- The usage errors of C6 on an invocation without positional arguments
whose format string does not compile. -/
theorem missing_positional_usage_error_witness :
    (Arg noArgsEnv.positional 0 = "" ∧ NArg noArgsEnv.positional = 0 ∧
      noArgsEnv.Parse noArgsEnv.format = .error "template: unclosed action") ∧
    (createVolume noArgsEnv).err = some (.errUsage "missing volume name") ∧
    (deleteVolume noArgsEnv).err = some (.errUsage "missing volume ID") ∧
    (validateVolumeCapabilities noArgsEnv).rpcs = [] :=
  ⟨⟨by decide, by decide, rfl⟩,
    ((missing_positional_usage_error noArgsEnv).1 (by decide)).1,
    ((missing_positional_usage_error noArgsEnv).2 (by decide)).1.1,
    ((missing_positional_usage_error noArgsEnv).2 (by decide)).2.2.2.2.1⟩

/-! ## Request construction -/

/-- C7: with at least one identifier token, `controllerUnpublishVolume`
issues exactly one RPC and `controllerPublishVolume` issues exactly one
once the format compiles (and none otherwise); in every such call the
volume metadata is `nil` when the `-metadata` map has no entry and
otherwise carries exactly that map, and the node identifier is `nil` when
the `-nodeID` map has no entry and otherwise carries exactly that map. -/
theorem optional_subobjects_omitted (env : Env) (h : NArg env.positional ≠ 0) :
    (∀ tpl, env.Parse env.format = .ok tpl →
      (controllerPublishVolume env).rpcs =
        [.ControllerPublishVolume env.version (some ⟨parseVolumeID env.positional⟩)
          (if env.argsControllerPublishVolume.volumeMD.len = 0 then none
            else some ⟨env.argsControllerPublishVolume.volumeMD⟩)
          (if env.argsControllerPublishVolume.nodeID.len = 0 then none
            else some ⟨env.argsControllerPublishVolume.nodeID⟩)
          env.argsControllerPublishVolume.readOnly]) ∧
    (∀ c ∈ (controllerPublishVolume env).rpcs,
      c = .ControllerPublishVolume env.version (some ⟨parseVolumeID env.positional⟩)
          (if env.argsControllerPublishVolume.volumeMD.len = 0 then none
            else some ⟨env.argsControllerPublishVolume.volumeMD⟩)
          (if env.argsControllerPublishVolume.nodeID.len = 0 then none
            else some ⟨env.argsControllerPublishVolume.nodeID⟩)
          env.argsControllerPublishVolume.readOnly) ∧
    (controllerUnpublishVolume env).rpcs =
      [.ControllerUnpublishVolume env.version (some ⟨parseVolumeID env.positional⟩)
        (if env.argsControllerUnpublishVolume.volumeMD.len = 0 then none
          else some ⟨env.argsControllerUnpublishVolume.volumeMD⟩)
        (if env.argsControllerUnpublishVolume.nodeID.len = 0 then none
          else some ⟨env.argsControllerUnpublishVolume.nodeID⟩)] := by
  have flip : ∀ {α : Type} (n : Nat) (a : α),
      (if n > 0 then some a else none) = (if n = 0 then none else some a) := by
    intro α n a
    rcases Nat.eq_zero_or_pos n with h0 | h0
    · simp [h0]
    · simp [h0, Nat.pos_iff_ne_zero.mp h0]
  refine ⟨?_, ?_, ?_⟩
  · intro tpl htpl
    simp only [controllerPublishVolume, beq_iff_eq, h, if_false, htpl, flip]
    split <;> rfl
  · intro c hc
    simp only [controllerPublishVolume, beq_iff_eq, h, if_false, flip] at hc
    split at hc
    · simp at hc
    · split at hc <;> simpa using hc
  · simp only [controllerUnpublishVolume, beq_iff_eq, h, if_false, flip]
    split <;> rfl

/-- C7 on `-metadata k=v` without `-nodeID`: both requests carry the
metadata and no node identifier. -/
theorem optional_subobjects_omitted_witness :
    NArg publishEnv.positional ≠ 0 ∧
    (controllerUnpublishVolume publishEnv).rpcs =
      [.ControllerUnpublishVolume "0.0.0" (some ⟨[("id", "1")]⟩) (some ⟨[("k", "v")]⟩) none] ∧
    (controllerPublishVolume publishEnv).rpcs =
      [.ControllerPublishVolume "0.0.0" (some ⟨[("id", "1")]⟩) (some ⟨[("k", "v")]⟩) none
        false] :=
  ⟨by decide,
    (optional_subobjects_omitted publishEnv (by decide)).2.2.trans (by decide),
    ((optional_subobjects_omitted publishEnv (by decide)).1 _ rfl).trans (by decide)⟩

/-- C8: `deleteVolume` run as `deletevolume -metadata k=v id=1` passes a
nil volume metadata to the DeleteVolume RPC, and so does every invocation
that reaches the RPC; the `-metadata` map never reaches the request. -/
theorem delete_volume_drops_metadata :
    deleteEnv.argsDeleteVolume.volumeMD = [("k", "v")] ∧
    (deleteVolume deleteEnv).rpcs =
      [.DeleteVolume "0.0.0" (some ⟨[("id", "1")]⟩) none] ∧
    ∀ env : Env, (deleteVolume env).rpcs = [] ∨
      (deleteVolume env).rpcs =
        [.DeleteVolume env.version (some ⟨parseVolumeID env.positional⟩) none] := by
  refine ⟨rfl, by decide, ?_⟩
  intro env
  simp only [deleteVolume]
  split
  · exact Or.inl rfl
  · split <;> exact Or.inr rfl

/-- C9: `controllerUnpublishVolume` with an identifier token and a
succeeding RPC returns nil and writes nothing, as it does on every
invocation, where `deleteVolume` on the same input writes the line
`Success`. -/
theorem unpublish_prints_nothing :
    ((controllerUnpublishVolume plainEnv).err = none ∧
      (controllerUnpublishVolume plainEnv).rpcs =
        [.ControllerUnpublishVolume "0.0.0" (some ⟨[("id", "1")]⟩) none none] ∧
      (controllerUnpublishVolume plainEnv).stdout = "" ∧
      (deleteVolume plainEnv).err = none ∧
      (deleteVolume plainEnv).stdout = "Success\n") ∧
    ∀ env : Env, (controllerUnpublishVolume env).stdout = "" := by
  refine ⟨by decide, ?_⟩
  intro env
  simp only [controllerUnpublishVolume]
  split
  · rfl
  · split <;> rfl

/-- C10: `getCapacity` on a capacity of 42 returns nil and writes the
line `TotalCapcity: 42`, which is not the line `TotalCapacity: 42`; on
every capacity it writes the label `TotalCapcity: ` before the decimal
value. -/
theorem get_capacity_label :
    ((getCapacity plainEnv).err = none ∧
      (getCapacity plainEnv).stdout = "TotalCapcity: 42\n" ∧
      (getCapacity plainEnv).stdout ≠ "TotalCapacity: 42\n") ∧
    ∀ env : Env, (getCapacity env).stdout =
      match env.client.GetCapacity env.version with
      | .ok c => "TotalCapcity: " ++ toString c ++ "\n"
      | .error _ => "" := by
  refine ⟨by decide, ?_⟩
  intro env
  simp only [getCapacity]
  cases env.client.GetCapacity env.version <;> rfl

/-- C4: `validateVolumeCapabilities` run as
`validatevolumecapabilities -t ext4 -o noatime id=1` sends one capability,
the one with the file-system type; the mount flags of the command's own
container are not read. -/
theorem validate_ignores_own_mount_flags :
    validateEnv.argsValidateVolumeCapabilities.fsType = "ext4" ∧
    validateEnv.argsValidateVolumeCapabilities.mntFlags = ["noatime"] ∧
    (validateVolumeCapabilities validateEnv).rpcs =
      [.ValidateVolumeCapabilities "0.0.0" (some ⟨some ⟨[("id", "1")]⟩⟩)
        [⟨⟨"ext4", []⟩⟩]] := by
  decide

/-! ## The `listVolumes` machine -/

theorem step_sound (env : Env) (s t : LVState) (m : Move) (h : step env s m = some t) :
    Step env s t := by
  cases m with
  | mainDone =>
    simp only [step] at h
    split at h
    · split at h
      · cases h; exact Step.mainDone s ‹_› ‹_›
      · cases h
    · cases h
  | recvFetcher =>
    simp only [step] at h
    split at h
    · cases h; exact Step.recvFetcher s _ ‹_› ‹_›
    · cases h
  | recvRender i =>
    simp only [step] at h
    split at h
    · cases h; exact Step.recvRender s i _ ‹_› ‹_›
    · cases h
  | waiter =>
    simp only [step] at h
    split at h
    · split at h
      · cases h; exact Step.waitOver s ‹_› ‹_›
      · cases h
    · cases h; exact Step.closeDone s ‹_›
    · cases h
  | fetcher =>
    simp only [step, stepFetcher] at h
    split at h
    · split at h
      · cases h; exact Step.fetchErr s _ _ ‹_› ‹_›
      · cases h; exact Step.fetchOk s _ _ _ ‹_› ‹_›
    · cases h; exact Step.add s _ _ ‹_›
    · cases h; exact Step.spawn s _ _ ‹_›
    · cases h; exact Step.fetchDone s ‹_›
    · cases h
  | render i =>
    simp only [step, stepRender] at h
    split at h
    · cases h; exact Step.renderDone s i ‹_›
    · cases h; exact Step.renderItem s i _ _ _ ‹_› ‹_›
    · cases h

/-- A property that every move keeps holds along every schedule. -/
theorem run_keeps (env : Env) (P : LVState → Prop)
    (hstep : ∀ s t, P s → Step env s t → P t) :
    ∀ (sched : List Move) (s t : LVState), P s → run env s sched = some t → P t := by
  intro sched
  induction sched with
  | nil =>
    intro s t hs h
    simp only [run, Option.some.injEq] at h
    exact h ▸ hs
  | cons m ms ih =>
    intro s t hs h
    simp only [run] at h
    cases hm : step env s m with
    | none => simp [hm] at h
    | some u =>
      simp only [hm, Option.some_bind] at h
      exact ih u t (hstep s u hs (step_sound env s u m hm)) h

/-- When every move from a state with `P` takes one off the count `μ`, a
schedule is as long as what it took off. -/
theorem run_counts (env : Env) (P : LVState → Prop) (μ : LVState → Nat)
    (hstep : ∀ s t, P s → Step env s t → P t)
    (hdec : ∀ s t, P s → Step env s t → μ t + 1 = μ s) :
    ∀ (sched : List Move) (s t : LVState), P s → run env s sched = some t →
      μ t + sched.length = μ s := by
  intro sched
  induction sched with
  | nil =>
    intro s t _ h
    simp only [run, Option.some.injEq] at h
    simp [h]
  | cons m ms ih =>
    intro s t hs h
    simp only [run] at h
    cases hm : step env s m with
    | none => simp [hm] at h
    | some u =>
      simp only [hm, Option.some_bind] at h
      have hst := step_sound env s u m hm
      have h1 := ih u t (hstep s u hs hst) h
      have h2 := hdec s u hs hst
      simp only [List.length_cons]
      omega

/-- When moreover a state with `P` whose caller is still in the `select`
always has a move, some schedule brings the caller to its return. -/
theorem run_reaches (env : Env) (P : LVState → Prop) (μ : LVState → Nat)
    (hstep : ∀ s t, P s → Step env s t → P t)
    (hdec : ∀ s t, P s → Step env s t → μ t + 1 = μ s)
    (hprog : ∀ s, P s → s.main = .select → ∃ mv t, step env s mv = some t) :
    ∀ (n : Nat) (s : LVState), P s → μ s = n →
      ∃ sched t r, run env s sched = some t ∧ t.main = .returned r := by
  intro n
  induction n with
  | zero =>
    intro s hs hμ
    cases hm : s.main with
    | returned r => exact ⟨[], s, r, rfl, hm⟩
    | select =>
      obtain ⟨mv, t, ht⟩ := hprog s hs hm
      have := hdec s t hs (step_sound env s t mv ht)
      omega
  | succ k ih =>
    intro s hs hμ
    cases hm : s.main with
    | returned r => exact ⟨[], s, r, rfl, hm⟩
    | select =>
      obtain ⟨mv, t, ht⟩ := hprog s hs hm
      have hst := step_sound env s t mv ht
      have hd := hdec s t hs hst
      obtain ⟨sched, u, r, hrun, hret⟩ := ih t (hstep s t hs hst) (by omega)
      refine ⟨mv :: sched, u, r, ?_, hret⟩
      simp only [run, ht, Option.some_bind]
      exact hrun

theorem sum_map_set {α : Type} (f : α → Nat) (l : List α) (i : Nat) (r x : α)
    (h : l.get? i = some r) :
    ((l.set i x).map f).sum + f r = (l.map f).sum + f x := by
  induction l generalizing i with
  | nil => simp at h
  | cons a l ih =>
    cases i with
    | zero =>
      simp only [List.get?_cons_zero, Option.some.injEq] at h
      subst h
      simp only [List.set_cons_zero, List.map_cons, List.sum_cons]
      omega
    | succ i =>
      simp only [List.get?_cons_succ] at h
      have := ih i h
      simp only [List.set_cons_succ, List.map_cons, List.sum_cons]
      omega

theorem get?_set_cases {α : Type} (l : List α) (i j : Nat) (x r : α)
    (h : (l.set i x).get? j = some r) :
    (j = i ∧ r = x ∧ i < l.length) ∨ (j ≠ i ∧ l.get? j = some r) := by
  by_cases hji : j = i
  · subst hji
    have hlt : j < l.length := by
      by_contra hge
      have : (l.set j x).get? j = none := by
        simp only [List.get?_eq_getElem?, List.getElem?_eq_none_iff, List.length_set]
        omega
      rw [this] at h
      cases h
    left
    refine ⟨rfl, ?_, hlt⟩
    simp only [List.get?_eq_getElem?] at h
    rw [List.getElem?_set_self hlt] at h
    cases h
    rfl
  · right
    refine ⟨hji, ?_⟩
    simp only [List.get?_eq_getElem?] at h ⊢
    rw [List.getElem?_set_ne (Ne.symm hji)] at h
    exact h

theorem core_step (env : Env) (s t : LVState) (hc : Core s) (h : Step env s t) : Core t := by
  obtain ⟨hwg, hwait, hdone⟩ := hc
  cases h with
  | mainDone hm hd => exact ⟨hwg, hwait, hdone⟩
  | recvFetcher e hm hf =>
    refine ⟨?_, hwait, hdone⟩
    simpa [hf, fetchUnits] using hwg
  | recvRender i e hm hr =>
    refine ⟨?_, hwait, hdone⟩
    have := sum_map_set renderUnits s.renders i _ .returnedErr hr
    simp only [renderUnits] at this
    simp only [hwg]
    congr 1
    omega
  | waitOver hw h0 =>
    refine ⟨hwg, fun _ => h0, ?_, ?_⟩
    · intro hd
      have := hdone.mp hd
      rw [hw] at this
      cases this
    · intro hx
      cases hx
  | closeDone hw =>
    refine ⟨hwg, fun _ => hwait (by rw [hw]; simp), fun _ => rfl, fun _ => rfl⟩
  | fetchErr tok e hf hr =>
    refine ⟨?_, hwait, hdone⟩
    simpa [hf, fetchUnits] using hwg
  | fetchOk tok vols next hf hr =>
    refine ⟨?_, hwait, hdone⟩
    simpa [hf, fetchUnits] using hwg
  | add vols next hf =>
    simp only [hf, fetchUnits] at hwg
    refine ⟨?_, ?_, hdone⟩
    · simp only [fetchUnits, hwg]
      push_cast
      ring
    · intro hw
      have := hwait hw
      show s.wg + 1 = 0
      omega
  | spawn vols next hf =>
    simp only [hf, fetchUnits] at hwg
    refine ⟨?_, hwait, hdone⟩
    have hu : fetchUnits
        (if (!env.argsListVolumes.paging || next == "") = true then FetchPc.done
          else FetchPc.call next) = 1 := by
      split <;> rfl
    simp only [hu, hwg, List.map_append, List.sum_append, List.map_cons, List.map_nil,
      List.sum_cons, List.sum_nil, renderUnits]
    push_cast
    ring
  | fetchDone hf =>
    simp only [hf, fetchUnits] at hwg
    refine ⟨?_, ?_, hdone⟩
    · simp only [fetchUnits, hwg]
      push_cast
      ring
    · intro hw
      have := hwait hw
      show s.wg - 1 = 0
      omega
  | renderDone i hr =>
    have hs := sum_map_set renderUnits s.renders i _ .exited hr
    have h1 : renderUnits (.loop []) = 1 := rfl
    have h2 : renderUnits .exited = 0 := rfl
    rw [h1, h2] at hs
    refine ⟨?_, ?_, hdone⟩
    · show s.wg - 1 = ((fetchUnits s.fetcher +
        ((s.renders.set i .exited).map renderUnits).sum : Nat) : Int)
      omega
    · intro hw
      have := hwait hw
      show s.wg - 1 = 0
      omega
  | renderItem i tpl v vs ht hr =>
    refine ⟨?_, hwait, hdone⟩
    have hs := sum_map_set renderUnits s.renders i _
      (match (tpl.Execute (.volumeInfo v)).2 with
        | none => RenderPc.loop vs
        | some e => RenderPc.sendErr (.foreign e)) hr
    have hu : renderUnits
        (match (tpl.Execute (.volumeInfo v)).2 with
        | none => RenderPc.loop vs
        | some e => RenderPc.sendErr (.foreign e)) = 1 := by
      split <;> rfl
    have h1 : renderUnits (.loop (v :: vs)) = 1 := rfl
    rw [h1, hu] at hs
    show s.wg = ((fetchUnits s.fetcher + ((s.renders.set i
      (match (tpl.Execute (.volumeInfo v)).2 with
        | none => RenderPc.loop vs
        | some e => RenderPc.sendErr (.foreign e))).map renderUnits).sum : Nat) : Int)
    omega

/-- With the counter at zero the fetch goroutine and every render
goroutine are past their `wg.Done()`. -/
theorem core_zero (s : LVState) (hc : Core s) (h0 : s.wg = 0) :
    s.fetcher = .exited ∧ ∀ i r, s.renders.get? i = some r → r = .exited := by
  obtain ⟨hwg, -, -⟩ := hc
  rw [hwg] at h0
  have h1 : fetchUnits s.fetcher + (s.renders.map renderUnits).sum = 0 := by
    exact_mod_cast h0
  have hf : fetchUnits s.fetcher = 0 := by omega
  have hr : (s.renders.map renderUnits).sum = 0 := by omega
  constructor
  · cases hfe : s.fetcher <;> simp [hfe, fetchUnits] at hf
    rfl
  · intro i r hir
    have hmem : r ∈ s.renders := List.get?_mem hir
    have := (List.sum_eq_zero_iff.mp hr) (renderUnits r) (List.mem_map_of_mem _ hmem)
    cases r <;> simp [renderUnits] at this
    rfl

theorem step_earlyReturn (env : Env) (n : Nat) (e : GoError) (m : Move) :
    step env (earlyReturn n e) m = none := by
  cases m <;> simp [step, earlyReturn, stepFetcher, stepRender]

theorem run_earlyReturn (env : Env) (n : Nat) (e : GoError) (sched : List Move)
    (t : LVState) (h : run env (earlyReturn n e) sched = some t) :
    t = earlyReturn n e ∧ sched = [] := by
  cases sched with
  | nil =>
    simp only [run, Option.some.injEq] at h
    exact ⟨h.symm, rfl⟩
  | cons m ms => simp [run, step_earlyReturn] at h

theorem uint32_of_le (m : Nat) (h : m ≤ maxUint32) : uint32 m = m := by
  unfold uint32
  unfold maxUint32 at h
  exact Nat.mod_eq_of_lt (by omega)

theorem range_step (env : Env) (s t : LVState) (hi : RangeInv env s) (h : Step env s t) :
    RangeInv env t := by
  obtain ⟨hmax, hrpc, hf, hr, hm⟩ := hi
  cases h with
  | mainDone hm1 hd =>
    refine ⟨hmax, hrpc, hf, hr, ?_⟩
    intro x hx
    cases hx
  | recvFetcher e hm1 hfe =>
    refine ⟨hmax, hrpc, ?_, hr, ?_⟩
    · intro x hx
      cases hx
    · intro x hx
      cases hx
      exact hf _ hfe
  | recvRender i e hm1 hre =>
    refine ⟨hmax, hrpc, hf, ?_, ?_⟩
    · intro j x hx
      rcases get?_set_cases _ _ _ _ _ hx with ⟨-, h1, -⟩ | ⟨-, h1⟩
      · cases h1
      · exact hr j x h1
    · intro x hx
      cases hx
      exact hr i _ hre
  | waitOver hw h0 => exact ⟨hmax, hrpc, hf, hr, hm⟩
  | closeDone hw => exact ⟨hmax, hrpc, hf, hr, hm⟩
  | fetchErr tok e hfe hre =>
    refine ⟨hmax, ?_, ?_, hr, hm⟩
    · intro c hc
      rcases List.mem_append.mp hc with h1 | h1
      · exact hrpc c h1
      · simp only [List.mem_singleton] at h1
        exact ⟨tok, by rw [h1, hmax]⟩
    · intro x hx
      cases hx
      exact ⟨e, rfl⟩
  | fetchOk tok vols next hfe hre =>
    refine ⟨hmax, ?_, ?_, hr, hm⟩
    · intro c hc
      rcases List.mem_append.mp hc with h1 | h1
      · exact hrpc c h1
      · simp only [List.mem_singleton] at h1
        exact ⟨tok, by rw [h1, hmax]⟩
    · intro x hx
      cases hx
  | add vols next hfe =>
    refine ⟨hmax, hrpc, ?_, hr, hm⟩
    intro x hx
    cases hx
  | spawn vols next hfe =>
    refine ⟨hmax, hrpc, ?_, ?_, hm⟩
    · intro x hx
      simp only at hx
      split at hx <;> cases hx
    · intro j x hx
      simp only [List.get?_eq_getElem?] at hx
      rcases Nat.lt_or_ge j s.renders.length with hj | hj
      · rw [List.getElem?_append_left hj] at hx
        exact hr j x (by simpa [List.get?_eq_getElem?] using hx)
      · rw [List.getElem?_append_right hj] at hx
        cases hk : j - s.renders.length with
        | zero => simp [hk] at hx
        | succ k => simp [hk] at hx
  | fetchDone hfe =>
    refine ⟨hmax, hrpc, ?_, hr, hm⟩
    intro x hx
    cases hx
  | renderDone i hre =>
    refine ⟨hmax, hrpc, hf, ?_, hm⟩
    intro j x hx
    rcases get?_set_cases _ _ _ _ _ hx with ⟨-, h1, -⟩ | ⟨-, h1⟩
    · cases h1
    · exact hr j x h1
  | renderItem i tpl v vs ht hre =>
    refine ⟨hmax, hrpc, hf, ?_, hm⟩
    intro j x hx
    rcases get?_set_cases _ _ _ _ _ hx with ⟨-, h1, -⟩ | ⟨-, h1⟩
    · split at h1
      · cases h1
      · cases h1
        exact ⟨_, rfl⟩
    · exact hr j x h1

/-- C5: `listVolumes` with a maximum-entries value above 4294967295
returns the range error naming the value under every schedule, with no
RPC call and no write; with a value up to 4294967295 it never returns an
error built by `fmt.Errorf`, and every ListVolumes call it makes carries
exactly that value as its 32-bit maximum. -/
theorem max_entries_range (env : Env) :
    (maxUint32 < env.argsListVolumes.maxEntries →
      ∀ sched st, listVolumes env sched = some st →
        st.main = .returned (some (.errorf ("error: max entries > uin32: " ++
          toString env.argsListVolumes.maxEntries))) ∧
        st.rpcs = [] ∧ st.writes = [] ∧ sched = []) ∧
    (env.argsListVolumes.maxEntries ≤ maxUint32 →
      uint32 env.argsListVolumes.maxEntries = env.argsListVolumes.maxEntries ∧
      ∀ sched st, listVolumes env sched = some st →
        (∀ msg, st.main ≠ .returned (some (.errorf msg))) ∧
        st.maxEntries = env.argsListVolumes.maxEntries ∧
        ∀ c ∈ st.rpcs, ∃ tok,
          c = .ListVolumes env.version env.argsListVolumes.maxEntries tok) := by
  constructor
  · intro hm sched st h
    simp only [listVolumes, listVolumesInit, hm, if_true] at h
    obtain ⟨h1, h2⟩ := run_earlyReturn env _ _ sched st h
    subst h1
    exact ⟨rfl, rfl, rfl, h2⟩
  · intro hm
    refine ⟨uint32_of_le _ hm, ?_⟩
    intro sched st h
    have hinit : RangeInv env (listVolumesInit env) := by
      simp only [listVolumesInit, Nat.not_lt.mpr hm, if_false, uint32_of_le _ hm]
      split
      · refine ⟨rfl, ?_, ?_, ?_, ?_⟩
        · intro c hc; simp [earlyReturn] at hc
        · intro x hx; simp [earlyReturn] at hx
        · intro i x hx; simp [earlyReturn] at hx
        · intro x hx
          simp only [earlyReturn, MainPc.returned.injEq, Option.some.injEq] at hx
          exact ⟨_, hx.symm⟩
      · refine ⟨rfl, ?_, ?_, ?_, ?_⟩
        · intro c hc; simp at hc
        · intro x hx; simp at hx
        · intro i x hx; simp at hx
        · intro x hx; simp at hx
    have hfin := run_keeps env (RangeInv env) (range_step env) sched _ st hinit h
    obtain ⟨hmax, hrpc, -, -, hmain⟩ := hfin
    refine ⟨?_, hmax, hrpc⟩
    intro msg hmsg
    obtain ⟨x, hx⟩ := hmain _ hmsg
    cases hx

/-! ## Runs on which nothing fails -/

theorem fetchChain_call (env : Env) (M fuel k : Nat) (tok : String)
    (R : List (String × List VolumeInfo)) (h : fetchChain env M fuel k tok = some R) :
    ∃ vols next rest, env.client.ListVolumes k env.version M tok = .ok (vols, next) ∧
      R = (tok, vols) :: rest ∧
      if (!env.argsListVolumes.paging || next == "") = true then rest = []
      else ∃ fuel', fetchChain env M fuel' (k + 1) next = some rest := by
  cases fuel with
  | zero => simp [fetchChain] at h
  | succ f =>
    simp only [fetchChain] at h
    split at h
    · cases h
    · rename_i vols next hcall
      refine ⟨vols, next, ?_⟩
      split at h
      · rename_i hlast
        simp only [Option.some.injEq] at h
        exact ⟨[], hcall, h.symm, by simp only [hlast, if_true]⟩
      · rename_i hlast
        cases hrec : fetchChain env M f (k + 1) next with
        | none => simp [hrec] at h
        | some rest =>
          simp only [hrec, Option.map_some', Option.some.injEq] at h
          exact ⟨rest, hcall, h.symm, by simp only [hlast]; exact ⟨f, hrec⟩⟩

theorem drop_eq_cons {α : Type} (l : List α) (k : Nat) (a : α) (rest : List α)
    (h : l.drop k = a :: rest) :
    k < l.length ∧ l.get? k = some a ∧ l.drop (k + 1) = rest ∧
      l.take (k + 1) = l.take k ++ [a] := by
  have hlt : k < l.length := by
    by_contra hge
    rw [List.drop_eq_nil_of_le (Nat.le_of_not_lt hge)] at h
    cases h
  have hget : l.get? k = some a := by
    have := List.drop_eq_getElem_cons hlt
    rw [this] at h
    simp only [List.cons.injEq] at h
    simp [List.get?_eq_getElem?, List.getElem?_eq_getElem hlt, h.1]
  refine ⟨hlt, hget, ?_, ?_⟩
  · have := List.drop_eq_getElem_cons hlt
    rw [this] at h
    simp only [List.cons.injEq] at h
    exact h.2
  · rw [List.take_succ]
    simp only [List.get?_eq_getElem?] at hget
    simp [hget]

theorem rendered_of_writes (s : LVState) (i : Nat) :
    rendered s i = (s.writes.filter (fun w => w.task == i)).map (fun w => w.item) := rfl

theorem rendered_nil_of_lt (s : LVState) (i n : Nat) (h : ∀ w ∈ s.writes, w.task < n)
    (hi : n ≤ i) : rendered s i = [] := by
  rw [rendered_of_writes]
  have : s.writes.filter (fun w => w.task == i) = [] := by
    rw [List.filter_eq_nil_iff]
    intro w hw
    have := h w hw
    simp only [beq_iff_eq]
    omega
  rw [this]
  rfl

theorem chain_step (env : Env) (tpl : Template) (pages : List (String × List VolumeInfo))
    (hr : ∀ v, (tpl.Execute (.volumeInfo v)).2 = none)
    (s t : LVState) (hi : ChainInv env tpl pages s) (h : Step env s t) :
    ChainInv env tpl pages t := by
  obtain ⟨hmax, htpl, hrpcs, hlen, hfetch, hrend, hwrites, hmain⟩ := hi
  cases h with
  | mainDone hm hd =>
    refine ⟨hmax, htpl, hrpcs, hlen, hfetch, hrend, hwrites, ?_⟩
    intro r hret
    cases hret
    exact ⟨rfl, hd⟩
  | recvFetcher e hm hfe =>
    rw [hfe] at hfetch
    exact hfetch.elim
  | recvRender i e hm hre =>
    obtain ⟨p, -, hp⟩ := hrend i _ hre
    exact hp.elim
  | waitOver hw h0 => exact ⟨hmax, htpl, hrpcs, hlen, hfetch, hrend, hwrites, hmain⟩
  | closeDone hw =>
    refine ⟨hmax, htpl, hrpcs, hlen, hfetch, hrend, hwrites, ?_⟩
    intro r hret
    exact ⟨(hmain r hret).1, rfl⟩
  | fetchErr tok e hfe hcall =>
    rw [hfe] at hfetch
    obtain ⟨-, fuel, hch⟩ := hfetch
    obtain ⟨vols, next, rest, hok, -, -⟩ := fetchChain_call env _ _ _ _ _ hch
    rw [hcall] at hok
    cases hok
  | fetchOk tok vols next hfe hcall =>
    rw [hfe] at hfetch
    obtain ⟨hrl, fuel, hch⟩ := hfetch
    obtain ⟨vols', next', rest, hok, hdrop, hcont⟩ := fetchChain_call env _ _ _ _ _ hch
    rw [hcall] at hok
    simp only [Except.ok.injEq, Prod.mk.injEq] at hok
    obtain ⟨hv, hn⟩ := hok
    subst hv
    subst hn
    obtain ⟨hlt, hget, hrest, htake⟩ := drop_eq_cons _ _ _ _ hdrop
    refine ⟨hmax, htpl, ?_, ?_, ?_, hrend, hwrites, hmain⟩
    · show s.rpcs ++ [RpcCall.ListVolumes env.version s.maxEntries tok] =
        (pages.take (s.rpcs ++ [RpcCall.ListVolumes env.version s.maxEntries tok]).length).map
          (fun p => RpcCall.ListVolumes env.version s.maxEntries p.1)
      rw [List.length_append, List.length_singleton, htake, List.map_append, ← hrpcs]
      rfl
    · show (s.rpcs ++ [RpcCall.ListVolumes env.version s.maxEntries tok]).length ≤ pages.length
      rw [List.length_append, List.length_singleton]
      omega
    · show s.renders.length + 1 =
          (s.rpcs ++ [RpcCall.ListVolumes env.version s.maxEntries tok]).length ∧
        (∃ tok', pages.get? s.renders.length = some (tok', vols)) ∧
        if (!env.argsListVolumes.paging || next == "") = true then
          (s.rpcs ++ [RpcCall.ListVolumes env.version s.maxEntries tok]).length = pages.length
        else ∃ fuel', fetchChain env s.maxEntries fuel'
          (s.rpcs ++ [RpcCall.ListVolumes env.version s.maxEntries tok]).length next =
          some (pages.drop (s.rpcs ++ [RpcCall.ListVolumes env.version s.maxEntries tok]).length)
      rw [List.length_append, List.length_singleton, hrl]
      refine ⟨rfl, ⟨tok, hget⟩, ?_⟩
      split
      · rename_i hlast
        rw [if_pos hlast] at hcont
        rw [hcont] at hrest
        have := List.drop_eq_nil_iff.mp hrest
        omega
      · rename_i hlast
        rw [if_neg hlast] at hcont
        obtain ⟨f, hf⟩ := hcont
        exact ⟨f, by rw [hf, hrest]⟩
  | add vols next hfe =>
    rw [hfe] at hfetch
    exact ⟨hmax, htpl, hrpcs, hlen, hfetch, hrend, hwrites, hmain⟩
  | spawn vols next hfe =>
    rw [hfe] at hfetch
    obtain ⟨hrl, ⟨tok, hget⟩, hcont⟩ := hfetch
    refine ⟨hmax, htpl, hrpcs, hlen, ?_, ?_, ?_, hmain⟩
    · by_cases hlast : (!env.argsListVolumes.paging || next == "") = true
      · rw [if_pos hlast] at hcont
        show (match (if (!env.argsListVolumes.paging || next == "") = true then FetchPc.done
          else FetchPc.call next) with
          | .call tok => _
          | .add vols next | .spawn vols next => _
          | .done | .exited => _
          | .sendErr _ | .returnedErr => False)
        rw [if_pos hlast]
        show (s.renders ++ [RenderPc.loop vols]).length = s.rpcs.length ∧
          s.rpcs.length = pages.length
        rw [List.length_append, List.length_singleton]
        exact ⟨hrl, hcont⟩
      · rw [if_neg hlast] at hcont
        show (match (if (!env.argsListVolumes.paging || next == "") = true then FetchPc.done
          else FetchPc.call next) with
          | .call tok => _
          | .add vols next | .spawn vols next => _
          | .done | .exited => _
          | .sendErr _ | .returnedErr => False)
        rw [if_neg hlast]
        show (s.renders ++ [RenderPc.loop vols]).length = s.rpcs.length ∧ _
        rw [List.length_append, List.length_singleton]
        exact ⟨hrl, hcont⟩
    · intro i r hir
      change (s.renders ++ [RenderPc.loop vols]).get? i = some r at hir
      simp only [List.get?_eq_getElem?] at hir
      rcases Nat.lt_or_ge i s.renders.length with hj | hj
      · rw [List.getElem?_append_left hj] at hir
        exact hrend i r (by simpa [List.get?_eq_getElem?] using hir)
      · rw [List.getElem?_append_right hj] at hir
        cases hk : i - s.renders.length with
        | zero =>
          simp only [hk, List.getElem?_cons_zero, Option.some.injEq] at hir
          subst hir
          have hie : i = s.renders.length := by omega
          subst hie
          refine ⟨(tok, vols), hget, ?_⟩
          show rendered s s.renders.length ++ vols = vols
          rw [rendered_nil_of_lt s _ s.renders.length (fun w hw => (hwrites w hw).1)
            (Nat.le_refl _)]
          rfl
        | succ k => simp [hk] at hir
    · intro w hw
      have := hwrites w hw
      show w.task < (s.renders ++ [RenderPc.loop vols]).length ∧ _
      rw [List.length_append, List.length_singleton]
      exact ⟨by omega, this.2⟩
  | fetchDone hfe =>
    rw [hfe] at hfetch
    exact ⟨hmax, htpl, hrpcs, hlen, hfetch, hrend, hwrites, hmain⟩
  | renderDone i hre =>
    refine ⟨hmax, htpl, hrpcs, hlen, ?_, ?_, ?_, hmain⟩
    · show (match s.fetcher with
          | .call tok => (s.renders.set i RenderPc.exited).length = s.rpcs.length ∧ _
          | .add vols next | .spawn vols next =>
            (s.renders.set i RenderPc.exited).length + 1 = s.rpcs.length ∧
            (∃ tok, pages.get? (s.renders.set i RenderPc.exited).length = some (tok, vols)) ∧ _
          | .done | .exited =>
            (s.renders.set i RenderPc.exited).length = s.rpcs.length ∧ _
          | .sendErr _ | .returnedErr => False)
      rw [List.length_set]
      exact hfetch
    · intro j r hjr
      rcases get?_set_cases _ _ _ _ _ hjr with ⟨h1, h2, -⟩ | ⟨-, h2⟩
      · subst h1
        subst h2
        obtain ⟨p, hp, hrest⟩ := hrend j _ hre
        refine ⟨p, hp, ?_⟩
        show rendered s j = p.2
        rw [← hrest]
        exact (List.append_nil _).symm
      · exact hrend j r h2
    · intro w hw
      show w.task < (s.renders.set i RenderPc.exited).length ∧ _
      rw [List.length_set]
      exact hwrites w hw
  | renderItem i tpl' v vs ht hre =>
    rw [htpl] at ht
    cases ht
    have hlt : i < s.renders.length := by
      by_contra hge
      have : s.renders.get? i = none := by
        simp only [List.get?_eq_getElem?, List.getElem?_eq_none_iff]
        omega
      rw [this] at hre
      cases hre
    refine ⟨hmax, htpl, hrpcs, hlen, ?_, ?_, ?_, hmain⟩
    · show (match s.fetcher with
          | .call tok => (s.renders.set i _).length = s.rpcs.length ∧ _
          | .add vols next | .spawn vols next =>
            (s.renders.set i _).length + 1 = s.rpcs.length ∧
            (∃ tok, pages.get? (s.renders.set i _).length = some (tok, vols)) ∧ _
          | .done | .exited => (s.renders.set i _).length = s.rpcs.length ∧ _
          | .sendErr _ | .returnedErr => False)
      rw [List.length_set]
      exact hfetch
    · intro j r hjr
      rcases get?_set_cases _ _ _ _ _ hjr with ⟨h1, h2, -⟩ | ⟨h1, h2⟩
      · subst h1
        obtain ⟨p, hp, hrest⟩ := hrend j _ hre
        refine ⟨p, hp, ?_⟩
        rw [h2, hr v]
        show rendered _ j ++ vs = p.2
        simp only [rendered_of_writes, List.filter_append, List.map_append] at hrest ⊢
        simp only [List.filter_cons, List.filter_nil, beq_self_eq_true, if_true, List.map_cons,
          List.map_nil, List.append_assoc, List.singleton_append]
        exact hrest
      · obtain ⟨p, hp, hrest⟩ := hrend j r h2
        refine ⟨p, hp, ?_⟩
        have hne : (i == j) = false := by simpa using Ne.symm h1
        cases r with
        | loop rest =>
          show rendered _ j ++ rest = p.2
          simp only [rendered_of_writes, List.filter_append, List.map_append] at hrest ⊢
          simp only [List.filter_cons, List.filter_nil, hne, Bool.false_eq_true, if_false,
            List.map_nil, List.append_nil]
          exact hrest
        | exited =>
          show rendered _ j = p.2
          simp only [rendered_of_writes, List.filter_append, List.map_append] at hrest ⊢
          simp only [List.filter_cons, List.filter_nil, hne, Bool.false_eq_true, if_false,
            List.map_nil, List.append_nil]
          exact hrest
        | sendErr e => exact hrest.elim
        | returnedErr => exact hrest.elim
    · intro w hw
      show w.task < (s.renders.set i _).length ∧ _
      rw [List.length_set]
      rcases List.mem_append.mp hw with h1 | h1
      · exact hwrites w h1
      · simp only [List.mem_singleton] at h1
        subst h1
        exact ⟨hlt, rfl⟩

theorem pagesLeft_cons (p : String × List VolumeInfo) (ps : List (String × List VolumeInfo)) :
    pagesLeft (p :: ps) = p.2.length + 4 + pagesLeft ps := by
  simp [pagesLeft]

theorem chain_dec (env : Env) (tpl : Template) (pages : List (String × List VolumeInfo))
    (hr : ∀ v, (tpl.Execute (.volumeInfo v)).2 = none)
    (s t : LVState) (hi : ChainInv env tpl pages s) (h : Step env s t) :
    movesLeft pages t + 1 = movesLeft pages s := by
  obtain ⟨hmax, htpl, hrpcs, hlen, hfetch, hrend, hwrites, hmain⟩ := hi
  cases h with
  | mainDone hm hd =>
    simp only [movesLeft, fetchLeft, hm]
    omega
  | recvFetcher e hm hfe =>
    rw [hfe] at hfetch
    exact hfetch.elim
  | recvRender i e hm hre =>
    obtain ⟨p, -, hp⟩ := hrend i _ hre
    exact hp.elim
  | waitOver hw h0 =>
    simp only [movesLeft, fetchLeft, hw]
    omega
  | closeDone hw =>
    simp only [movesLeft, fetchLeft, hw]
    omega
  | fetchErr tok e hfe hcall =>
    rw [hfe] at hfetch
    obtain ⟨-, fuel, hch⟩ := hfetch
    obtain ⟨vols, next, rest, hok, -, -⟩ := fetchChain_call env _ _ _ _ _ hch
    rw [hcall] at hok
    cases hok
  | fetchOk tok vols next hfe hcall =>
    rw [hfe] at hfetch
    obtain ⟨hrl, fuel, hch⟩ := hfetch
    obtain ⟨vols', next', rest, hok, hdrop, hcont⟩ := fetchChain_call env _ _ _ _ _ hch
    rw [hcall] at hok
    simp only [Except.ok.injEq, Prod.mk.injEq] at hok
    obtain ⟨hv, hn⟩ := hok
    subst hv
    subst hn
    obtain ⟨hlt, hget, hrest, htake⟩ := drop_eq_cons _ _ _ _ hdrop
    simp only [movesLeft, fetchLeft, hfe, List.length_append, List.length_singleton, hdrop,
      hrest, pagesLeft_cons]
    omega
  | add vols next hfe =>
    simp only [movesLeft, fetchLeft, hfe]
    omega
  | spawn vols next hfe =>
    rw [hfe] at hfetch
    obtain ⟨hrl, ⟨tok, hget⟩, hcont⟩ := hfetch
    by_cases hlast : (!env.argsListVolumes.paging || next == "") = true
    · rw [if_pos hlast] at hcont
      have h0 : pagesLeft (pages.drop s.rpcs.length) = 0 := by
        rw [List.drop_eq_nil_of_le (Nat.le_of_eq hcont.symm)]
        rfl
      simp only [movesLeft, fetchLeft, hfe, if_pos hlast, h0, List.map_append,
        List.sum_append, List.map_cons, List.map_nil, List.sum_cons, List.sum_nil, renderLeft]
      omega
    · simp only [movesLeft, fetchLeft, hfe, if_neg hlast, List.map_append,
        List.sum_append, List.map_cons, List.map_nil, List.sum_cons, List.sum_nil, renderLeft]
      omega
  | fetchDone hfe =>
    simp only [movesLeft, fetchLeft, hfe]
    omega
  | renderDone i hre =>
    have hs := sum_map_set renderLeft s.renders i _ .exited hre
    have h1 : renderLeft (.loop []) = 1 := rfl
    have h2 : renderLeft .exited = 0 := rfl
    rw [h1, h2] at hs
    simp only [movesLeft, fetchLeft]
    omega
  | renderItem i tpl' v vs ht hre =>
    rw [htpl] at ht
    cases ht
    have hs := sum_map_set renderLeft s.renders i _ (.loop vs) hre
    have h1 : renderLeft (.loop (v :: vs)) = vs.length + 2 := rfl
    have h2 : renderLeft (.loop vs) = vs.length + 1 := rfl
    rw [h1, h2] at hs
    simp only [movesLeft, fetchLeft, hr v]
    omega

theorem sum_renderUnits_exited (l : List RenderPc)
    (h : ∀ i r, l.get? i = some r → r = .exited) : (l.map renderUnits).sum = 0 := by
  rw [List.sum_eq_zero_iff]
  intro x hx
  obtain ⟨r, hr, hrx⟩ := List.mem_map.mp hx
  obtain ⟨n, hn⟩ := List.get?_of_mem hr
  rw [h n r hn] at hrx
  exact hrx.symm

/-- On a run without failure a state whose caller is still in the
`select` has a move enabled. -/
theorem chain_progress (env : Env) (tpl : Template) (pages : List (String × List VolumeInfo))
    (s : LVState) (hc : Core s) (hi : ChainInv env tpl pages s) (hm : s.main = .select) :
    ∃ mv t, step env s mv = some t := by
  obtain ⟨hmax, htpl, hrpcs, hlen, hfetch, hrend, hwrites, hmain⟩ := hi
  cases hfe : s.fetcher with
  | call tok =>
    refine ⟨.fetcher, ?_⟩
    simp only [step, stepFetcher, hfe]
    split <;> exact ⟨_, rfl⟩
  | sendErr e =>
    rw [hfe] at hfetch
    exact hfetch.elim
  | returnedErr =>
    rw [hfe] at hfetch
    exact hfetch.elim
  | add vols next =>
    refine ⟨.fetcher, ?_⟩
    simp only [step, stepFetcher, hfe]
    exact ⟨_, rfl⟩
  | spawn vols next =>
    refine ⟨.fetcher, ?_⟩
    simp only [step, stepFetcher, hfe]
    exact ⟨_, rfl⟩
  | done =>
    refine ⟨.fetcher, ?_⟩
    simp only [step, stepFetcher, hfe]
    exact ⟨_, rfl⟩
  | exited =>
    by_cases hall : ∀ i r, s.renders.get? i = some r → r = .exited
    · have hwg : s.wg = 0 := by
        rw [hc.1, hfe, sum_renderUnits_exited _ hall]
        rfl
      cases hw : s.waiter with
      | wait =>
        refine ⟨.waiter, ?_⟩
        simp only [step, hw, hwg, if_true]
        exact ⟨_, rfl⟩
      | close =>
        refine ⟨.waiter, ?_⟩
        simp only [step, hw]
        exact ⟨_, rfl⟩
      | exited =>
        have hd : s.chdone = true := hc.2.2.mpr hw
        refine ⟨.mainDone, ?_⟩
        simp only [step, hm, hd, if_true]
        exact ⟨_, rfl⟩
    · push_neg at hall
      obtain ⟨i, r, hir, hne⟩ := hall
      obtain ⟨p, -, hp⟩ := hrend i r hir
      cases r with
      | loop rest =>
        cases rest with
        | nil =>
          refine ⟨.render i, ?_⟩
          simp only [step, stepRender, hir]
          exact ⟨_, rfl⟩
        | cons v vs =>
          refine ⟨.render i, ?_⟩
          simp only [step, stepRender, hir, htpl]
          exact ⟨_, rfl⟩
      | exited => exact absurd rfl hne
      | sendErr e => exact hp.elim
      | returnedErr => exact hp.elim

/-- The pages of a chain are linked: page `i` is what fetch number `k + i`
answers to its token, the first token is the one the chain starts from,
a page that is not the last was answered with paging on and the
non-empty token of the next page, and the last page was answered with
paging off or the empty token. -/
theorem fetchChain_link (env : Env) (M : Nat) :
    ∀ (fuel k : Nat) (tok : String) (R : List (String × List VolumeInfo)),
      fetchChain env M fuel k tok = some R →
      ∀ (i : Nat) (tok' : String) (vols : List VolumeInfo), R.get? i = some (tok', vols) →
        ∃ next, env.client.ListVolumes (k + i) env.version M tok' = .ok (vols, next) ∧
          (i = 0 → tok' = tok) ∧
          if i + 1 < R.length then
            env.argsListVolumes.paging = true ∧ next ≠ "" ∧
              ∃ vols', R.get? (i + 1) = some (next, vols')
          else env.argsListVolumes.paging = false ∨ next = "" := by
  intro fuel
  induction fuel with
  | zero =>
    intro k tok R h
    simp [fetchChain] at h
  | succ f ih =>
    intro k tok R h i tok' vols hi
    obtain ⟨vols0, next0, rest, hcall, hR, hcont⟩ := fetchChain_call env M _ k tok R h
    subst hR
    by_cases hlast : (!env.argsListVolumes.paging || next0 == "") = true
    · rw [if_pos hlast] at hcont
      subst hcont
      cases i with
      | zero =>
        simp only [List.get?_cons_zero, Option.some.injEq, Prod.mk.injEq] at hi
        obtain ⟨h1, h2⟩ := hi
        subst h1
        subst h2
        refine ⟨next0, hcall, fun _ => rfl, ?_⟩
        have hnot : ¬ (0 + 1 < [(tok, vols0)].length) := by simp
        rw [if_neg hnot]
        simp only [Bool.or_eq_true, Bool.not_eq_true', beq_iff_eq] at hlast
        exact hlast
      | succ j => simp at hi
    · rw [if_neg hlast] at hcont
      obtain ⟨f', hrec⟩ := hcont
      simp only [Bool.or_eq_true, Bool.not_eq_true', beq_iff_eq, not_or,
        Bool.not_eq_false] at hlast
      obtain ⟨v1, n1, rest1, -, hrest, -⟩ := fetchChain_call env M _ _ _ _ hrec
      cases i with
      | zero =>
        simp only [List.get?_cons_zero, Option.some.injEq, Prod.mk.injEq] at hi
        obtain ⟨h1, h2⟩ := hi
        subst h1
        subst h2
        refine ⟨next0, hcall, fun _ => rfl, ?_⟩
        have hlt : 0 + 1 < ((tok, vols0) :: rest).length := by
          rw [hrest]
          simp
        rw [if_pos hlt]
        exact ⟨hlast.1, hlast.2, v1, by rw [hrest]; rfl⟩
      | succ j =>
        simp only [List.get?_cons_succ] at hi
        have hfuel : ∀ g, fetchChain env M g (k + 1) next0 = some rest →
            ∃ next, env.client.ListVolumes (k + 1 + j) env.version M tok' = .ok (vols, next) ∧
              (j = 0 → tok' = next0) ∧
              if j + 1 < rest.length then
                env.argsListVolumes.paging = true ∧ next ≠ "" ∧
                  ∃ vols', rest.get? (j + 1) = some (next, vols')
              else env.argsListVolumes.paging = false ∨ next = "" := by
          intro g hg
          cases g with
          | zero => simp [fetchChain] at hg
          | succ g =>
            have hsame : fetchChain env M (f + 1) k tok = some ((tok, vols0) :: rest) := h
            simp only [fetchChain, hcall] at hsame
            have hb : (!env.argsListVolumes.paging || next0 == "") = false := by
              simp [hlast.1, hlast.2]
            simp only [hb, Bool.false_eq_true, if_false] at hsame
            cases hq : fetchChain env M f (k + 1) next0 with
            | none => simp [hq] at hsame
            | some rest' =>
              simp only [hq, Option.map_some', Option.some.injEq, List.cons.injEq,
                true_and] at hsame
              subst hsame
              exact ih (k + 1) next0 rest' hq j tok' vols hi
        obtain ⟨next, hc1, -, hc3⟩ := hfuel f' hrec
        refine ⟨next, ?_, fun h0 => absurd h0 (Nat.succ_ne_zero j), ?_⟩
        · rw [← hc1]
          congr 1
          omega
        · simp only [List.length_cons, List.get?_cons_succ, Nat.add_lt_add_iff_right]
          exact hc3

theorem listVolumesInit_started (env : Env) (tpl : Template)
    (hm : env.argsListVolumes.maxEntries ≤ maxUint32)
    (hp : env.Parse env.format = .ok tpl) :
    listVolumesInit env =
      { maxEntries := env.argsListVolumes.maxEntries, tpl := some tpl, main := .select,
        waiter := .wait, fetcher := .call env.argsListVolumes.startingToken,
        renders := [], wg := 1, chdone := false, rpcs := [], writes := [] } := by
  simp only [listVolumesInit, Nat.not_lt.mpr hm, if_false, uint32_of_le _ hm, hp]

theorem core_started (n : Nat) (tpl : Option Template) (tok : String) :
    Core
      { maxEntries := n, tpl := tpl, main := .select, waiter := .wait,
        fetcher := .call tok, renders := [], wg := 1, chdone := false, rpcs := [],
        writes := [] } := by
  refine ⟨rfl, ?_, ?_⟩
  · intro h
    exact absurd rfl h
  · constructor
    · intro h
      cases h
    · intro h
      cases h

/-- C2: on a stub controller whose chain of fetches from the starting
token reaches its end without error (`pages`: with paging off the first
page alone, with paging on one page per token until a fetch answers the
empty token), with a format that compiles and a renderer that never
fails, every schedule of `listVolumes` makes the ListVolumes calls of the
chain in order and nothing else, the i-th render goroutine writes the
items of page `i` in their order and nothing else, the caller returns
only nil and only after exactly the calls of the whole chain have been
made and every page has been written in full, a caller that has not
returned always has a move to wait for, no schedule is longer than the
pages allow, and some schedule does reach the return. -/
theorem list_volumes_paging (env : Env) (tpl : Template) (fuel : Nat)
    (pages : List (String × List VolumeInfo))
    (hm : env.argsListVolumes.maxEntries ≤ maxUint32)
    (hp : env.Parse env.format = .ok tpl)
    (hr : ∀ v, (tpl.Execute (.volumeInfo v)).2 = none)
    (hc : fetchChain env env.argsListVolumes.maxEntries fuel 0
      env.argsListVolumes.startingToken = some pages) :
    (env.argsListVolumes.paging = false →
      ∃ vols, pages = [(env.argsListVolumes.startingToken, vols)]) ∧
    (∀ i tok vols, pages.get? i = some (tok, vols) →
      ∃ next, env.client.ListVolumes i env.version env.argsListVolumes.maxEntries tok =
          .ok (vols, next) ∧
        (i = 0 → tok = env.argsListVolumes.startingToken) ∧
        if i + 1 < pages.length then
          env.argsListVolumes.paging = true ∧ next ≠ "" ∧
            ∃ vols', pages.get? (i + 1) = some (next, vols')
        else env.argsListVolumes.paging = false ∨ next = "") ∧
    (∃ sched st, listVolumes env sched = some st ∧ st.main = .returned none) ∧
    ∀ sched st, listVolumes env sched = some st →
      st.rpcs = (pages.take st.rpcs.length).map
        (fun p => RpcCall.ListVolumes env.version env.argsListVolumes.maxEntries p.1) ∧
      (∀ w ∈ st.writes, w.task < pages.length ∧
        w.text = (tpl.Execute (.volumeInfo w.item)).1) ∧
      (∀ i p, pages.get? i = some p → rendered st i <+: p.2) ∧
      (∀ r, st.main = .returned r →
        r = none ∧
        st.rpcs = pages.map
          (fun p => RpcCall.ListVolumes env.version env.argsListVolumes.maxEntries p.1) ∧
        ∀ i p, pages.get? i = some p → rendered st i = p.2) ∧
      (st.main = .select → ∃ mv t, step env st mv = some t) ∧
      sched.length ≤ pagesLeft pages + 4 := by
  have hinit := listVolumesInit_started env tpl hm hp
  have hI : Core (listVolumesInit env) ∧ ChainInv env tpl pages (listVolumesInit env) := by
    rw [hinit]
    refine ⟨core_started _ _ _, rfl, rfl, rfl, Nat.zero_le _, ⟨rfl, fuel, hc⟩, ?_, ?_, ?_⟩
    · intro i r h
      simp at h
    · intro w hw
      simp at hw
    · intro r h
      cases h
  have hkeep : ∀ s t, (Core s ∧ ChainInv env tpl pages s) → Step env s t →
      (Core t ∧ ChainInv env tpl pages t) :=
    fun s t hs hst => ⟨core_step env s t hs.1 hst, chain_step env tpl pages hr s t hs.2 hst⟩
  refine ⟨?_, ?_, ?_, ?_⟩
  · intro hpag
    obtain ⟨vols, next, rest, -, hR, hcont⟩ := fetchChain_call env _ _ _ _ _ hc
    have hlast : (!env.argsListVolumes.paging || next == "") = true := by simp [hpag]
    rw [if_pos hlast] at hcont
    exact ⟨vols, by rw [hR, hcont]⟩
  · intro i tok vols hi
    have := fetchChain_link env _ fuel 0 _ pages hc i tok vols hi
    simpa using this
  · obtain ⟨sched, st, r, hrun, hret⟩ := run_reaches env _ (movesLeft pages) hkeep
      (fun s t hs hst => chain_dec env tpl pages hr s t hs.2 hst)
      (fun s hs hsel => chain_progress env tpl pages s hs.1 hs.2 hsel) _ _ hI rfl
    have hfin := run_keeps env _ hkeep sched _ st hI hrun
    have hnil := (hfin.2.2.2.2.2.2.2.2 r hret).1
    subst hnil
    exact ⟨sched, st, hrun, hret⟩
  · intro sched st hrun
    have hfin := run_keeps env _ hkeep sched _ st hI hrun
    have hcount := run_counts env _ (movesLeft pages) hkeep
      (fun s t hs hst => chain_dec env tpl pages hr s t hs.2 hst) sched _ st hI hrun
    obtain ⟨hcore, hchain⟩ := hfin
    have hchain' := hchain
    obtain ⟨hmax, htpl, hrpcs, hlen, hfetch, hrend, hwrites, hmain⟩ := hchain
    have hrl : st.renders.length ≤ pages.length := by
      cases hfe : st.fetcher <;> rw [hfe] at hfetch <;> first
        | exact hfetch.elim
        | exact Nat.le_trans (Nat.le_of_eq hfetch.1) hlen
        | exact Nat.le_trans (Nat.le_succ _) (Nat.le_trans (Nat.le_of_eq hfetch.1) hlen)
    have hprefix : ∀ i p, pages.get? i = some p → rendered st i <+: p.2 := by
      intro i p hip
      rcases Nat.lt_or_ge i st.renders.length with hlt | hge
      · have hsome : st.renders.get? i = some (st.renders.get ⟨i, hlt⟩) := List.get?_eq_get hlt
        obtain ⟨q, hq, hmatch⟩ := hrend i _ hsome
        rw [hip] at hq
        cases hq
        cases hrr : st.renders.get ⟨i, hlt⟩ with
        | loop rest =>
          rw [hrr] at hmatch
          exact ⟨rest, hmatch⟩
        | exited =>
          rw [hrr] at hmatch
          exact ⟨[], by rw [List.append_nil]; exact hmatch⟩
        | sendErr e =>
          rw [hrr] at hmatch
          exact hmatch.elim
        | returnedErr =>
          rw [hrr] at hmatch
          exact hmatch.elim
      · rw [rendered_nil_of_lt st i st.renders.length (fun w hw => (hwrites w hw).1) hge]
        exact List.nil_prefix
    refine ⟨?_, ?_, hprefix, ?_, ?_, ?_⟩
    · rw [hmax] at hrpcs
      exact hrpcs
    · intro w hw
      have := (hwrites w hw).1
      exact ⟨by omega, (hwrites w hw).2⟩
    · intro r hret
      obtain ⟨hnil, hd⟩ := hmain r hret
      have hw := hcore.2.2.mp hd
      have h0 := hcore.2.1 (by rw [hw]; simp)
      obtain ⟨hfe, hall⟩ := core_zero st hcore h0
      rw [hfe] at hfetch
      obtain ⟨hl1, hl2⟩ := hfetch
      refine ⟨hnil, ?_, ?_⟩
      · rw [hmax, hl2, List.take_length] at hrpcs
        exact hrpcs
      · intro i p hip
        have hlt : i < st.renders.length := by
          have : i < pages.length := by
            by_contra hge
            have : pages.get? i = none := by
              simp only [List.get?_eq_getElem?, List.getElem?_eq_none_iff]
              omega
            rw [this] at hip
            cases hip
          omega
        have hsome : st.renders.get? i = some (st.renders.get ⟨i, hlt⟩) := List.get?_eq_get hlt
        obtain ⟨q, hq, hmatch⟩ := hrend i _ hsome
        rw [hip] at hq
        cases hq
        rw [hall i _ hsome] at hmatch
        exact hmatch
    · exact chain_progress env tpl pages st hcore hchain'
    · rw [hinit] at hcount
      have : movesLeft pages
          { maxEntries := env.argsListVolumes.maxEntries, tpl := some tpl, main := .select,
            waiter := .wait, fetcher := .call env.argsListVolumes.startingToken,
            renders := [], wg := 1, chdone := false, rpcs := [], writes := [] } =
          pagesLeft pages + 4 := by
        simp only [movesLeft, fetchLeft, List.length_nil, List.drop_zero, List.map_nil,
          List.sum_nil]
        omega
      omega

/-- C2 on the pages A, B (token `t1`) and C: one complete schedule returns
nil after the two fetches with every item written once, and every
schedule keeps to the two fetches. -/
theorem list_volumes_paging_witness :
    (pagingEnv.argsListVolumes.maxEntries ≤ maxUint32 ∧
      pagingEnv.Parse pagingEnv.format = .ok lineTemplate ∧
      fetchChain pagingEnv 0 2 0 "" =
        some [("", [⟨some ⟨[("id", "A")]⟩⟩, ⟨some ⟨[("id", "B")]⟩⟩]),
          ("t1", [⟨some ⟨[("id", "C")]⟩⟩])]) ∧
    (listVolumes pagingEnv pagingSchedule).map
        (fun st => (st.main, st.rpcs, rendered st 0, rendered st 1)) =
      some (.returned none,
        [.ListVolumes "0.0.0" 0 "", .ListVolumes "0.0.0" 0 "t1"],
        [⟨some ⟨[("id", "A")]⟩⟩, ⟨some ⟨[("id", "B")]⟩⟩], [⟨some ⟨[("id", "C")]⟩⟩]) ∧
    (∀ sched st, listVolumes pagingEnv sched = some st →
      ∀ r, st.main = .returned r →
        r = none ∧
        st.rpcs = [.ListVolumes "0.0.0" 0 "", .ListVolumes "0.0.0" 0 "t1"]) :=
  ⟨⟨by decide, rfl, by decide⟩, by decide,
    fun sched st h r hret =>
      ⟨((list_volumes_paging pagingEnv lineTemplate 2 _ (by decide) rfl (fun _ => rfl)
          (by decide : fetchChain pagingEnv pagingEnv.argsListVolumes.maxEntries 2 0
            pagingEnv.argsListVolumes.startingToken =
            some [("", [⟨some ⟨[("id", "A")]⟩⟩, ⟨some ⟨[("id", "B")]⟩⟩]),
              ("t1", [⟨some ⟨[("id", "C")]⟩⟩])])).2.2.2 sched st h).2.2.2.1 r hret |>.1,
       ((list_volumes_paging pagingEnv lineTemplate 2 _ (by decide) rfl (fun _ => rfl)
          (by decide : fetchChain pagingEnv pagingEnv.argsListVolumes.maxEntries 2 0
            pagingEnv.argsListVolumes.startingToken =
            some [("", [⟨some ⟨[("id", "A")]⟩⟩, ⟨some ⟨[("id", "B")]⟩⟩]),
              ("t1", [⟨some ⟨[("id", "C")]⟩⟩])])).2.2.2 sched st h).2.2.2.1 r hret |>.2.1⟩⟩

/-! ## Runs whose second fetch fails -/

theorem fail_step (env : Env) (tpl : Template) (vols : List VolumeInfo) (t1 e : String)
    (hr : ∀ v, (tpl.Execute (.volumeInfo v)).2 = none)
    (hpag : env.argsListVolumes.paging = true)
    (h1 : env.client.ListVolumes 0 env.version env.argsListVolumes.maxEntries
      env.argsListVolumes.startingToken = .ok (vols, t1))
    (ht1 : t1 ≠ "")
    (h2 : env.client.ListVolumes 1 env.version env.argsListVolumes.maxEntries t1 = .error e)
    (s t : LVState) (hc : Core s) (hi : FailInv env tpl vols t1 e s) (h : Step env s t) :
    FailInv env tpl vols t1 e t := by
  obtain ⟨hmax, htpl, hdone, hwait, hfetch, hrend, hmain⟩ := hi
  have hsel : ∀ x, s.fetcher ≠ .returnedErr → s.main = .returned x → False :=
    fun x hne hx => hne (hmain x hx).2
  cases h with
  | mainDone hm hd =>
    rw [hdone] at hd
    cases hd
  | recvFetcher x hm hfe =>
    rw [hfe] at hfetch
    obtain ⟨hx, -, hst, hrp⟩ := hfetch
    subst hx
    refine ⟨hmax, htpl, hdone, hwait, ⟨rfl, hst, hrp⟩, hrend, ?_⟩
    intro r hret
    cases hret
    exact ⟨rfl, rfl⟩
  | recvRender i x hm hre =>
    rcases hrend i _ hre with ⟨rest, hx⟩ | hx <;> cases hx
  | waitOver hw h0 =>
    have hu : fetchUnits s.fetcher = 0 := by
      have := hc.1
      omega
    cases hfe : s.fetcher <;> rw [hfe] at hfetch hu <;> first
      | exact hfetch.elim
      | (simp [fetchUnits] at hu)
  | closeDone hw =>
    rw [hwait] at hw
    cases hw
  | fetchErr tok x hfe hcall =>
    rw [hfe] at hfetch
    have hms : s.main = .select := by
      cases hmn : s.main with
      | select => rfl
      | returned r => exact (hsel r (by rw [hfe]; simp) hmn).elim
    rcases hfetch with ⟨hrp, htok, hst⟩ | ⟨hrp, htok, hst⟩
    · rw [hrp, htok, hmax] at hcall
      simp only [List.length_nil, List.length_singleton] at hcall
      rw [h1] at hcall
      cases hcall
    · rw [hrp, htok, hmax] at hcall
      simp only [List.length_nil, List.length_singleton] at hcall
      rw [h2] at hcall
      cases hcall
      refine ⟨hmax, htpl, hdone, hwait, ⟨rfl, hms, hst, ?_⟩, hrend,
        fun r hret => (hsel r (by rw [hfe]; simp) hret).elim⟩
      show s.rpcs ++ [RpcCall.ListVolumes env.version s.maxEntries tok] = _
      rw [hrp, htok]
      rfl
  | fetchOk tok vs next hfe hcall =>
    rw [hfe] at hfetch
    rcases hfetch with ⟨hrp, htok, hst⟩ | ⟨hrp, htok, hst⟩
    · rw [hrp, htok, hmax] at hcall
      simp only [List.length_nil, List.length_singleton] at hcall
      rw [h1] at hcall
      cases hcall
      refine ⟨hmax, htpl, hdone, hwait, ⟨?_, rfl, rfl, hst⟩, hrend, ?_⟩
      · show s.rpcs ++ [RpcCall.ListVolumes env.version s.maxEntries tok] = _
        rw [hrp, htok]
        rfl
      · intro r hret
        exact (hsel r (by rw [hfe]; simp) hret).elim
    · rw [hrp, htok, hmax] at hcall
      simp only [List.length_nil, List.length_singleton] at hcall
      rw [h2] at hcall
      cases hcall
  | add vs next hfe =>
    rw [hfe] at hfetch
    refine ⟨hmax, htpl, hdone, hwait, hfetch, hrend, ?_⟩
    intro r hret
    exact (hsel r (by rw [hfe]; simp) hret).elim
  | spawn vs next hfe =>
    rw [hfe] at hfetch
    obtain ⟨hrp, hvs, hnext, hst⟩ := hfetch
    subst hvs
    subst hnext
    have hlast : ¬ (!env.argsListVolumes.paging || next == "") = true := by
      simp [hpag, ht1]
    refine ⟨hmax, htpl, hdone, hwait, ?_, ?_, ?_⟩
    · show FailFetch env vs next e s.maxEntries s.rpcs s.main
        (s.renders ++ [RenderPc.loop vs]).length
        (if (!env.argsListVolumes.paging || next == "") = true then FetchPc.done
          else FetchPc.call next)
      rw [if_neg hlast, List.length_append, List.length_singleton, hst]
      exact Or.inr ⟨hrp, rfl, rfl⟩
    · intro i r hir
      change (s.renders ++ [RenderPc.loop vs]).get? i = some r at hir
      simp only [List.get?_eq_getElem?] at hir
      rcases Nat.lt_or_ge i s.renders.length with hj | hj
      · rw [List.getElem?_append_left hj] at hir
        exact hrend i r (by simpa [List.get?_eq_getElem?] using hir)
      · rw [List.getElem?_append_right hj] at hir
        cases hk : i - s.renders.length with
        | zero =>
          simp only [hk, List.getElem?_cons_zero, Option.some.injEq] at hir
          exact Or.inl ⟨vs, hir.symm⟩
        | succ k => simp [hk] at hir
    · intro r hret
      exact (hsel r (by rw [hfe]; simp) hret).elim
  | fetchDone hfe =>
    rw [hfe] at hfetch
    exact hfetch.elim
  | renderDone i hre =>
    refine ⟨hmax, htpl, hdone, hwait, ?_, ?_, hmain⟩
    · show FailFetch env vols t1 e s.maxEntries s.rpcs s.main
        (s.renders.set i RenderPc.exited).length s.fetcher
      rw [List.length_set]
      exact hfetch
    · intro j r hjr
      rcases get?_set_cases _ _ _ _ _ hjr with ⟨-, h3, -⟩ | ⟨-, h3⟩
      · exact Or.inr h3
      · exact hrend j r h3
  | renderItem i tpl' v vs ht hre =>
    rw [htpl] at ht
    cases ht
    refine ⟨hmax, htpl, hdone, hwait, ?_, ?_, hmain⟩
    · show FailFetch env vols t1 e s.maxEntries s.rpcs s.main
        (s.renders.set i _).length s.fetcher
      rw [List.length_set]
      exact hfetch
    · intro j r hjr
      rcases get?_set_cases _ _ _ _ _ hjr with ⟨-, h3, -⟩ | ⟨-, h3⟩
      · rw [hr v] at h3
        exact Or.inl ⟨vs, h3⟩
      · exact hrend j r h3

theorem fail_dec (env : Env) (tpl : Template) (vols : List VolumeInfo) (t1 e : String)
    (hr : ∀ v, (tpl.Execute (.volumeInfo v)).2 = none)
    (hpag : env.argsListVolumes.paging = true)
    (h1 : env.client.ListVolumes 0 env.version env.argsListVolumes.maxEntries
      env.argsListVolumes.startingToken = .ok (vols, t1))
    (ht1 : t1 ≠ "")
    (h2 : env.client.ListVolumes 1 env.version env.argsListVolumes.maxEntries t1 = .error e)
    (s t : LVState) (hc : Core s) (hi : FailInv env tpl vols t1 e s) (h : Step env s t) :
    movesLeftErr vols.length t + 1 = movesLeftErr vols.length s := by
  obtain ⟨hmax, htpl, hdone, hwait, hfetch, hrend, hmain⟩ := hi
  have hsel : ∀ x, s.fetcher ≠ .returnedErr → s.main = .returned x → False :=
    fun x hne hx => hne (hmain x hx).2
  have e1 : (if (1 : Nat) = 0 then vols.length + 5 else 1) = 1 := rfl
  cases h with
  | mainDone hm hd =>
    rw [hdone] at hd
    cases hd
  | recvFetcher x hm hfe =>
    simp only [movesLeftErr, fetchLeftErr, hm, hfe]
    omega
  | recvRender i x hm hre =>
    rcases hrend i _ hre with ⟨rest, hx⟩ | hx <;> cases hx
  | waitOver hw h0 =>
    have hu : fetchUnits s.fetcher = 0 := by
      have := hc.1
      omega
    cases hfe : s.fetcher <;> rw [hfe] at hfetch hu <;> first
      | exact hfetch.elim
      | (simp [fetchUnits] at hu)
  | closeDone hw =>
    rw [hwait] at hw
    cases hw
  | fetchErr tok x hfe hcall =>
    rw [hfe] at hfetch
    rcases hfetch with ⟨hrp, htok, hst⟩ | ⟨hrp, htok, hst⟩
    · rw [hrp, htok, hmax] at hcall
      simp only [List.length_nil, List.length_singleton] at hcall
      rw [h1] at hcall
      cases hcall
    · simp only [movesLeftErr, fetchLeftErr, hfe, hrp, List.length_singleton, e1]
      omega
  | fetchOk tok vs next hfe hcall =>
    rw [hfe] at hfetch
    rcases hfetch with ⟨hrp, htok, hst⟩ | ⟨hrp, htok, hst⟩
    · simp only [movesLeftErr, fetchLeftErr, hfe, hrp, List.length_nil, if_true]
      omega
    · rw [hrp, htok, hmax] at hcall
      simp only [List.length_nil, List.length_singleton] at hcall
      rw [h2] at hcall
      cases hcall
  | add vs next hfe =>
    simp only [movesLeftErr, fetchLeftErr, hfe]
    omega
  | spawn vs next hfe =>
    rw [hfe] at hfetch
    obtain ⟨hrp, hvs, hnext, hst⟩ := hfetch
    subst hvs
    subst hnext
    have hlast : ¬ (!env.argsListVolumes.paging || next == "") = true := by
      simp [hpag, ht1]
    simp only [movesLeftErr, fetchLeftErr, hfe, if_neg hlast, hrp, List.length_singleton,
      List.map_append, List.sum_append, List.map_cons, List.map_nil, List.sum_cons,
      List.sum_nil, renderLeft, e1]
    omega
  | fetchDone hfe =>
    rw [hfe] at hfetch
    exact hfetch.elim
  | renderDone i hre =>
    have hs := sum_map_set renderLeft s.renders i _ .exited hre
    have h3 : renderLeft (.loop []) = 1 := rfl
    have h4 : renderLeft .exited = 0 := rfl
    rw [h3, h4] at hs
    simp only [movesLeftErr, fetchLeftErr]
    omega
  | renderItem i tpl' v vs ht hre =>
    rw [htpl] at ht
    cases ht
    have hs := sum_map_set renderLeft s.renders i _ (.loop vs) hre
    have h3 : renderLeft (.loop (v :: vs)) = vs.length + 2 := rfl
    have h4 : renderLeft (.loop vs) = vs.length + 1 := rfl
    rw [h3, h4] at hs
    simp only [movesLeftErr, fetchLeftErr, hr v]
    omega

/-- On a run whose second fetch fails a state whose caller is still in the
`select` has a move enabled. -/
theorem fail_progress (env : Env) (tpl : Template) (vols : List VolumeInfo) (t1 e : String)
    (s : LVState) (hi : FailInv env tpl vols t1 e s) (hm : s.main = .select) :
    ∃ mv t, step env s mv = some t := by
  obtain ⟨hmax, htpl, hdone, hwait, hfetch, hrend, hmain⟩ := hi
  cases hfe : s.fetcher with
  | call tok =>
    refine ⟨.fetcher, ?_⟩
    simp only [step, stepFetcher, hfe]
    split <;> exact ⟨_, rfl⟩
  | sendErr x =>
    refine ⟨.recvFetcher, ?_⟩
    simp only [step, hm, hfe]
    exact ⟨_, rfl⟩
  | returnedErr =>
    rw [hfe] at hfetch
    rw [hm] at hfetch
    cases hfetch.1
  | add vs next =>
    refine ⟨.fetcher, ?_⟩
    simp only [step, stepFetcher, hfe]
    exact ⟨_, rfl⟩
  | spawn vs next =>
    refine ⟨.fetcher, ?_⟩
    simp only [step, stepFetcher, hfe]
    exact ⟨_, rfl⟩
  | done =>
    rw [hfe] at hfetch
    exact hfetch.elim
  | exited =>
    rw [hfe] at hfetch
    exact hfetch.elim

/-- C3: on a stub controller whose first fetch answers a non-empty token
and whose second fetch fails with `e`, with paging on, a format that
compiles and a renderer that never fails, under every schedule of
`listVolumes` the channel `chdone` stays open, the waiter stays in
`wg.Wait()` and the counter stays above zero (the unit of the fetch loop
is never released), the caller returns nothing but `e`, a caller that has
not returned always has a move to wait for, and no schedule is longer
than the first page allows, and some schedule does reach the return;
so every run ends with `e` returned, whatever the render goroutine of
page one has done by then. -/
theorem list_volumes_second_fetch_fails (env : Env) (tpl : Template)
    (vols : List VolumeInfo) (t1 e : String)
    (hm : env.argsListVolumes.maxEntries ≤ maxUint32)
    (hp : env.Parse env.format = .ok tpl)
    (hr : ∀ v, (tpl.Execute (.volumeInfo v)).2 = none)
    (hpag : env.argsListVolumes.paging = true)
    (h1 : env.client.ListVolumes 0 env.version env.argsListVolumes.maxEntries
      env.argsListVolumes.startingToken = .ok (vols, t1))
    (ht1 : t1 ≠ "")
    (h2 : env.client.ListVolumes 1 env.version env.argsListVolumes.maxEntries t1 = .error e) :
    (∃ sched st, listVolumes env sched = some st ∧
      st.main = .returned (some (.foreign e))) ∧
    ∀ sched st, listVolumes env sched = some st →
      st.chdone = false ∧ st.waiter = .wait ∧ 0 < st.wg ∧
      (∀ r, st.main = .returned r → r = some (.foreign e)) ∧
      (st.main = .select → ∃ mv t, step env st mv = some t) ∧
      sched.length ≤ vols.length + 6 := by
  have hinit := listVolumesInit_started env tpl hm hp
  have hI : Core (listVolumesInit env) ∧ FailInv env tpl vols t1 e (listVolumesInit env) := by
    rw [hinit]
    refine ⟨core_started _ _ _, rfl, rfl, rfl, rfl, Or.inl ⟨rfl, rfl, rfl⟩, ?_, ?_⟩
    · intro i r h
      simp at h
    · intro r h
      cases h
  have hkeep : ∀ s t, (Core s ∧ FailInv env tpl vols t1 e s) → Step env s t →
      (Core t ∧ FailInv env tpl vols t1 e t) :=
    fun s t hs hst => ⟨core_step env s t hs.1 hst,
      fail_step env tpl vols t1 e hr hpag h1 ht1 h2 s t hs.1 hs.2 hst⟩
  constructor
  · obtain ⟨sched, st, r, hrun, hret⟩ := run_reaches env _ (movesLeftErr vols.length) hkeep
      (fun s t hs hst => fail_dec env tpl vols t1 e hr hpag h1 ht1 h2 s t hs.1 hs.2 hst)
      (fun s hs hsel => fail_progress env tpl vols t1 e s hs.2 hsel) _ _ hI rfl
    have hfin := run_keeps env _ hkeep sched _ st hI hrun
    have hval := (hfin.2.2.2.2.2.2.2 r hret).1
    subst hval
    exact ⟨sched, st, hrun, hret⟩
  intro sched st hrun
  have hfin := run_keeps env _ hkeep sched _ st hI hrun
  have hcount := run_counts env _ (movesLeftErr vols.length) hkeep
    (fun s t hs hst => fail_dec env tpl vols t1 e hr hpag h1 ht1 h2 s t hs.1 hs.2 hst)
    sched _ st hI hrun
  obtain ⟨hcore, hfail⟩ := hfin
  have hfail' := hfail
  obtain ⟨hmax, htpl, hdone, hwait, hfetch, hrend, hmain⟩ := hfail
  refine ⟨hdone, hwait, ?_, fun r hret => (hmain r hret).1,
    fail_progress env tpl vols t1 e st hfail', ?_⟩
  · have hu : 0 < fetchUnits st.fetcher := by
      cases hfe : st.fetcher <;> rw [hfe] at hfetch <;> first
        | exact hfetch.elim
        | (simp [fetchUnits])
    have := hcore.1
    omega
  · rw [hinit] at hcount
    have : movesLeftErr vols.length
        { maxEntries := env.argsListVolumes.maxEntries, tpl := some tpl, main := .select,
          waiter := .wait, fetcher := .call env.argsListVolumes.startingToken,
          renders := [], wg := 1, chdone := false, rpcs := [], writes := [] } =
        vols.length + 6 := by
      simp only [movesLeftErr, fetchLeftErr, List.length_nil, if_true, List.map_nil,
        List.sum_nil]
      omega
    omega

/-- C3 on `failingClient`: the schedule that never runs the render
goroutine of page one and the schedule that lets it finish first both
return the error of the second fetch, as does every other schedule. -/
theorem list_volumes_second_fetch_fails_witness :
    (failingEnv.argsListVolumes.maxEntries ≤ maxUint32 ∧
      failingEnv.argsListVolumes.paging = true ∧
      failingEnv.client.ListVolumes 0 "0.0.0" 0 "" = .ok ([⟨some ⟨[("id", "A")]⟩⟩], "t1") ∧
      failingEnv.client.ListVolumes 1 "0.0.0" 0 "t1" = .error "rpc: unavailable") ∧
    (listVolumes failingEnv [.fetcher, .fetcher, .fetcher, .fetcher, .recvFetcher]).map
        (fun st => (st.main, st.writes.length, st.chdone)) =
      some (.returned (some (.foreign "rpc: unavailable")), 0, false) ∧
    (listVolumes failingEnv
        [.fetcher, .fetcher, .fetcher, .render 0, .render 0, .fetcher, .recvFetcher]).map
        (fun st => (st.main, st.writes.length, st.chdone)) =
      some (.returned (some (.foreign "rpc: unavailable")), 1, false) ∧
    (∀ sched st, listVolumes failingEnv sched = some st →
      st.chdone = false ∧ st.waiter = .wait ∧ 0 < st.wg ∧
      (∀ r, st.main = .returned r → r = some (.foreign "rpc: unavailable")) ∧
      (st.main = .select → ∃ mv t, step failingEnv st mv = some t) ∧
      sched.length ≤ 7) :=
  ⟨⟨by decide, rfl, rfl, rfl⟩, by decide, by decide,
    (list_volumes_second_fetch_fails failingEnv lineTemplate [⟨some ⟨[("id", "A")]⟩⟩] "t1"
      "rpc: unavailable" (by decide) rfl (fun _ => rfl) rfl rfl (by decide) rfl).2⟩

/-- C5 on `-maxEntries 4294967296` and on `-maxEntries 0`: the first
returns the range error without a call, the second never does. -/
theorem max_entries_range_witness :
    (maxUint32 < rangeEnv.argsListVolumes.maxEntries ∧
      pagingEnv.argsListVolumes.maxEntries ≤ maxUint32) ∧
    (∀ sched st, listVolumes rangeEnv sched = some st →
      st.main = .returned (some (.errorf ("error: max entries > uin32: " ++
        toString rangeEnv.argsListVolumes.maxEntries))) ∧
      st.rpcs = [] ∧ st.writes = [] ∧ sched = []) ∧
    (listVolumes rangeEnv []).map (fun st => st.main) =
      some (.returned (some (.errorf "error: max entries > uin32: 4294967296"))) ∧
    (∀ sched st, listVolumes pagingEnv sched = some st →
      (∀ msg, st.main ≠ .returned (some (.errorf msg))) ∧
      st.maxEntries = pagingEnv.argsListVolumes.maxEntries ∧
      ∀ c ∈ st.rpcs, ∃ tok,
        c = .ListVolumes pagingEnv.version pagingEnv.argsListVolumes.maxEntries tok) :=
  ⟨⟨by decide, by decide⟩, (max_entries_range rangeEnv).1 (by decide), by decide,
    ((max_entries_range pagingEnv).2 (by decide)).2⟩

end Csc
